import Mathlib

/-!
Verification of `dynamicExecutor_js_v1.js`: a shallow embedding of its
function store, synthesis/repair loop and sandbox executor.

This first part models the JSON text layer: the records the store writes
with `JSON.stringify` and reads back with `JSON.parse`.  JSON values are an
inductive type; rendering is executable; parsing is an executable fueled
recursive-descent reader; the round-trip theorem `jsonParse_jsonStringify`
is what the store's write-then-read path relies on.  Numbers are modelled
as integers (the records this program writes hold only strings, booleans
and structured data; float formatting is outside the model), and the
renderer emits compact text (the source passes an indent of 2 to
`JSON.stringify`, which only inserts whitespace that `JSON.parse` skips).
-/

/-- A JSON value: the data JSON text denotes. -/
inductive JValue where
  | null : JValue
  | bool (b : Bool) : JValue
  | num (n : Int) : JValue
  | str (s : String) : JValue
  | arr (elems : List JValue) : JValue
  | obj (fields : List (String × JValue)) : JValue

/-- Decimal digit character of a value below ten. -/
def digitChar10 (d : Nat) : Char := Char.ofNat (48 + d)

/-- Is this an ASCII decimal digit? -/
def isDigitC (c : Char) : Bool := 48 ≤ c.toNat && c.toNat ≤ 57

/-- Numeric value of a decimal digit character. -/
def digitVal (c : Char) : Nat := c.toNat - 48

/-- Big-endian decimal digits of a positive number, prepended to `acc`;
`fuel` bounds the recursion and any `fuel ≥ n` is enough. -/
def natCharsGo : Nat → Nat → List Char → List Char
  | 0, _, acc => acc
  | fuel + 1, n, acc =>
      if n = 0 then acc else natCharsGo fuel (n / 10) (digitChar10 (n % 10) :: acc)

/-- Decimal rendering of a natural number. -/
def natChars (n : Nat) : List Char := if n = 0 then ['0'] else natCharsGo n n []

/-- Value of a big-endian digit run, most significant first. -/
def digitsVal (ds : List Char) : Nat := ds.foldl (fun a c => 10 * a + digitVal c) 0

theorem digitChar10_isDigit {d : Nat} (h : d < 10) : isDigitC (digitChar10 d) = true := by
  unfold digitChar10 isDigitC
  interval_cases d <;> decide

theorem digitVal_digitChar10 {d : Nat} (h : d < 10) : digitVal (digitChar10 d) = d := by
  unfold digitChar10 digitVal
  interval_cases d <;> decide

/-- `natCharsGo` produces exactly the base-ten digits of `n` (big-endian),
in front of `acc`, once the fuel covers `n`. -/
theorem natCharsGo_eq_digits :
    ∀ n fuel acc, n ≤ fuel →
      natCharsGo fuel n acc = ((Nat.digits 10 n).map digitChar10).reverse ++ acc := by
  intro n
  induction n using Nat.strong_induction_on with
  | _ n ih =>
    intro fuel acc hfuel
    match fuel with
    | 0 =>
      have hn : n = 0 := Nat.le_zero.mp hfuel
      subst hn
      simp [natCharsGo]
    | fuel + 1 =>
      by_cases hn : n = 0
      · subst hn; simp [natCharsGo]
      · have hdiv : n / 10 < n := Nat.div_lt_self (Nat.pos_of_ne_zero hn) (by omega)
        have hrec := ih (n / 10) hdiv fuel (digitChar10 (n % 10) :: acc) (by omega)
        rw [natCharsGo, if_neg hn, hrec]
        rw [Nat.digits_def' (by omega : 2 ≤ 10) (Nat.pos_of_ne_zero hn)]
        simp

theorem natChars_eq_digits {n : Nat} (hn : n ≠ 0) :
    natChars n = ((Nat.digits 10 n).map digitChar10).reverse := by
  unfold natChars
  rw [if_neg hn, natCharsGo_eq_digits n n [] (le_refl n), List.append_nil]

theorem natChars_ne_nil (n : Nat) : natChars n ≠ [] := by
  by_cases hn : n = 0
  · subst hn; decide
  · rw [natChars_eq_digits hn]
    simp [Nat.digits_ne_nil_iff_ne_zero.mpr hn]

theorem natChars_all_digits (n : Nat) : ∀ c ∈ natChars n, isDigitC c = true := by
  by_cases hn : n = 0
  · subst hn; decide
  · rw [natChars_eq_digits hn]
    intro c hc
    simp only [List.mem_reverse, List.mem_map] at hc
    obtain ⟨d, hd, rfl⟩ := hc
    exact digitChar10_isDigit (Nat.digits_lt_base (by omega) hd)

/-- Folding the decimal digits big-endian recovers the number. -/
theorem digitsVal_natChars (n : Nat) : digitsVal (natChars n) = n := by
  by_cases hn : n = 0
  · subst hn; decide
  rw [natChars_eq_digits hn]
  unfold digitsVal
  have key : ∀ L : List Nat, (∀ d ∈ L, d < 10) →
      ((L.map digitChar10).reverse).foldl (fun a c => 10 * a + digitVal c) 0 =
        Nat.ofDigits 10 L := by
    intro L
    induction L with
    | nil => intro _; simp [Nat.ofDigits]
    | cons d L ihL =>
      intro hlt
      have hd : d < 10 := hlt d (List.mem_cons_self d L)
      simp only [List.map_cons, List.reverse_cons, List.foldl_append, List.foldl_cons,
        List.foldl_nil]
      rw [ihL (fun x hx => hlt x (List.mem_cons_of_mem d hx))]
      rw [digitVal_digitChar10 hd, Nat.ofDigits_cons]
      omega
  rw [key (Nat.digits 10 n) (fun d hd => Nat.digits_lt_base (by omega) hd),
    Nat.ofDigits_digits]
/-- Lowercase hexadecimal digit character of a value below sixteen. -/
def hexChar (d : Nat) : Char := if d < 10 then Char.ofNat (48 + d) else Char.ofNat (87 + d)

/-- Value of a hexadecimal digit character, if it is one. -/
def hexVal (c : Char) : Option Nat :=
  if 48 ≤ c.toNat ∧ c.toNat ≤ 57 then some (c.toNat - 48)
  else if 97 ≤ c.toNat ∧ c.toNat ≤ 102 then some (c.toNat - 87)
  else if 65 ≤ c.toNat ∧ c.toNat ≤ 70 then some (c.toNat - 55)
  else none

/-- JSON escaping of one character, as `JSON.stringify` emits it: quote and
backslash get a backslash, the common control characters get their short
escapes, remaining control characters get a `\u00XX` escape, everything else
stands for itself.  (`JSON.stringify` writes `\b` and `\f` for 0x08 and 0x0c;
the model writes the equivalent `\u` escape, which denotes the same text.) -/
def escChar (c : Char) : List Char :=
  if c = '"' then ['\\', '"']
  else if c = '\\' then ['\\', '\\']
  else if c = '\n' then ['\\', 'n']
  else if c = '\t' then ['\\', 't']
  else if c = '\r' then ['\\', 'r']
  else if c.toNat < 32 then ['\\', 'u', '0', '0', hexChar (c.toNat / 16), hexChar (c.toNat % 16)]
  else [c]

/-- JSON escaping of a character list. -/
def escStr : List Char → List Char
  | [] => []
  | c :: cs => escChar c ++ escStr cs

/-- The character a one-letter JSON escape denotes, if `e` is such a letter. -/
def unescChar (e : Char) : Option Char :=
  if e = '"' then some '"'
  else if e = '\\' then some '\\'
  else if e = '/' then some '/'
  else if e = 'n' then some '\n'
  else if e = 't' then some '\t'
  else if e = 'r' then some '\r'
  else if e = 'b' then some (Char.ofNat 8)
  else if e = 'f' then some (Char.ofNat 12)
  else none

theorem hexVal_hexChar {d : Nat} (h : d < 16) : hexVal (hexChar d) = some d := by
  unfold hexChar hexVal
  interval_cases d <;> decide
/-- Decimal rendering of an integer, as `JSON.stringify` writes one. -/
def intChars (n : Int) : List Char :=
  if n < 0 then '-' :: natChars n.natAbs else natChars n.natAbs

/-- The longest leading run of decimal digits, and the rest. -/
def takeDigitRun : List Char → List Char × List Char
  | [] => ([], [])
  | c :: rest =>
    if isDigitC c then
      let p := takeDigitRun rest
      (c :: p.1, p.2)
    else ([], c :: rest)

mutual

/-- Compact JSON text of a value (the indentation `JSON.stringify(x, null, 2)`
adds is whitespace `JSON.parse` skips, so the model renders without it). -/
def render : JValue → List Char
  | .null => "null".data
  | .bool true => "true".data
  | .bool false => "false".data
  | .num n => intChars n
  | .str s => '"' :: escStr s.data ++ ['"']
  | .arr xs => '[' :: renderArrBody xs
  | .obj fs => '{' :: renderObjBody fs

/-- Everything of an array's text after its opening bracket. -/
def renderArrBody : List JValue → List Char
  | [] => [']']
  | x :: xs => render x ++ renderArrTail xs

/-- An array's text after its first element: each further element with its
comma, then the closing bracket. -/
def renderArrTail : List JValue → List Char
  | [] => [']']
  | x :: xs => ',' :: render x ++ renderArrTail xs

/-- Everything of an object's text after its opening brace. -/
def renderObjBody : List (String × JValue) → List Char
  | [] => ['}']
  | f :: fs => renderField f ++ renderObjTail fs

/-- An object's text after its first member: each further member with its
comma, then the closing brace. -/
def renderObjTail : List (String × JValue) → List Char
  | [] => ['}']
  | f :: fs => ',' :: renderField f ++ renderObjTail fs

/-- One object member: quoted key, colon, value. -/
def renderField : String × JValue → List Char
  | (k, v) => '"' :: escStr k.data ++ '"' :: ':' :: render v

end

/-- What the fueled reader is currently reading. -/
inductive PMode where
  | pval
  | pstr
  | parrFirst
  | parrTail
  | pobjFirst
  | pobjTail
  | pfield

/-- What one step of the fueled reader produced. -/
inductive PTag where
  | pv (v : JValue)
  | pchars (cs : List Char)
  | plist (vs : List JValue)
  | pflds (fs : List (String × JValue))
  | pone (k : String) (v : JValue)

/-- Fueled recursive-descent JSON reader.  Each step consumes one unit of
fuel, so fuel one past the input length always suffices; recursion is
structural on the fuel, keeping every equation definitional. -/
def parseCore : Nat → PMode → List Char → Option (PTag × List Char)
  | 0, _, _ => none
  | fuel + 1, .pval, l =>
    match l with
    | [] => none
    | c :: rest =>
      if c = 'n' then
        match rest with
        | 'u' :: 'l' :: 'l' :: r => some (.pv .null, r)
        | _ => none
      else if c = 't' then
        match rest with
        | 'r' :: 'u' :: 'e' :: r => some (.pv (.bool true), r)
        | _ => none
      else if c = 'f' then
        match rest with
        | 'a' :: 'l' :: 's' :: 'e' :: r => some (.pv (.bool false), r)
        | _ => none
      else if c = '"' then
        match parseCore fuel .pstr rest with
        | some (.pchars cs, r) => some (.pv (.str (String.mk cs)), r)
        | _ => none
      else if c = '[' then
        match parseCore fuel .parrFirst rest with
        | some (.plist vs, r) => some (.pv (.arr vs), r)
        | _ => none
      else if c = '{' then
        match parseCore fuel .pobjFirst rest with
        | some (.pflds fs, r) => some (.pv (.obj fs), r)
        | _ => none
      else if c = '-' then
        match takeDigitRun rest with
        | ([], _) => none
        | (d :: ds, r) => some (.pv (.num (-(digitsVal (d :: ds) : Int))), r)
      else if isDigitC c then
        some (.pv (.num (digitsVal (takeDigitRun (c :: rest)).1 : Int)),
          (takeDigitRun (c :: rest)).2)
      else none
  | fuel + 1, .pstr, l =>
    match l with
    | [] => none
    | c :: rest =>
      if c = '"' then some (.pchars [], rest)
      else if c = '\\' then
        match rest with
        | 'u' :: h1 :: h2 :: h3 :: h4 :: rest3 =>
          match hexVal h1, hexVal h2, hexVal h3, hexVal h4 with
          | some a, some b, some cc, some d =>
            (match parseCore fuel .pstr rest3 with
             | some (.pchars cs, r) =>
                 some (.pchars (Char.ofNat (((a * 16 + b) * 16 + cc) * 16 + d) :: cs), r)
             | _ => none)
          | _, _, _, _ => none
        | e :: rest2 =>
          if e = 'u' then none
          else
            match unescChar e with
            | some u =>
              (match parseCore fuel .pstr rest2 with
               | some (.pchars cs, r) => some (.pchars (u :: cs), r)
               | _ => none)
            | none => none
        | [] => none
      else if c.toNat < 32 then none
      else
        match parseCore fuel .pstr rest with
        | some (.pchars cs, r) => some (.pchars (c :: cs), r)
        | _ => none
  | fuel + 1, .parrFirst, l =>
    match l with
    | [] => none
    | c :: rest =>
      if c = ']' then some (.plist [], rest)
      else
        match parseCore fuel .pval (c :: rest) with
        | some (.pv v, r) =>
          (match parseCore fuel .parrTail r with
           | some (.plist vs, r2) => some (.plist (v :: vs), r2)
           | _ => none)
        | _ => none
  | fuel + 1, .parrTail, l =>
    match l with
    | [] => none
    | c :: rest =>
      if c = ']' then some (.plist [], rest)
      else if c = ',' then
        match parseCore fuel .pval rest with
        | some (.pv v, r) =>
          (match parseCore fuel .parrTail r with
           | some (.plist vs, r2) => some (.plist (v :: vs), r2)
           | _ => none)
        | _ => none
      else none
  | fuel + 1, .pobjFirst, l =>
    match l with
    | [] => none
    | c :: rest =>
      if c = '}' then some (.pflds [], rest)
      else
        match parseCore fuel .pfield (c :: rest) with
        | some (.pone k v, r) =>
          (match parseCore fuel .pobjTail r with
           | some (.pflds fs, r2) => some (.pflds ((k, v) :: fs), r2)
           | _ => none)
        | _ => none
  | fuel + 1, .pobjTail, l =>
    match l with
    | [] => none
    | c :: rest =>
      if c = '}' then some (.pflds [], rest)
      else if c = ',' then
        match parseCore fuel .pfield rest with
        | some (.pone k v, r) =>
          (match parseCore fuel .pobjTail r with
           | some (.pflds fs, r2) => some (.pflds ((k, v) :: fs), r2)
           | _ => none)
        | _ => none
      else none
  | fuel + 1, .pfield, l =>
    match l with
    | [] => none
    | c :: rest =>
      if c = '"' then
        match parseCore fuel .pstr rest with
        | some (.pchars ks, r) =>
          (match r with
           | ':' :: r2 =>
             (match parseCore fuel .pval r2 with
              | some (.pv v, r3) => some (.pone (String.mk ks) v, r3)
              | _ => none)
           | _ => none)
        | _ => none
      else none

/-- `JSON.parse`, restricted to the compact text this model's renderer
emits (no inter-token whitespace, integer numerals). -/
def jsonParse (s : String) : Option JValue :=
  match parseCore (s.data.length + 1) .pval s.data with
  | some (.pv v, []) => some v
  | _ => none

/-- `JSON.stringify` on a JSON value. -/
def jsonStringify (v : JValue) : String := String.mk (render v)

theorem escStr_append (a b : List Char) : escStr (a ++ b) = escStr a ++ escStr b := by
  induction a with
  | nil => rfl
  | cons c cs ih => simp [escStr, ih]

theorem escChar_length_pos (c : Char) : 1 ≤ (escChar c).length := by
  unfold escChar
  repeat' split
  all_goals simp

theorem escStr_length (cs : List Char) : cs.length ≤ (escStr cs).length := by
  induction cs with
  | nil => simp [escStr]
  | cons c cs ih =>
    simp only [escStr, List.length_append, List.length_cons]
    have := escChar_length_pos c
    omega

/-- Reading an escaped string body gives back the original characters. -/
theorem pstr_escStr (s : List Char) :
    ∀ fuel rest, s.length + 1 ≤ fuel →
      parseCore fuel .pstr (escStr s ++ '"' :: rest) = some (.pchars s, rest) := by
  induction s with
  | nil =>
    intro fuel rest hfuel
    match fuel, hfuel with
    | fuel + 1, _ => rfl
  | cons c cs ih =>
    intro fuel rest hfuel
    match fuel, hfuel with
    | fuel + 1, hfuel =>
      have ihr := ih fuel rest (by simpa using Nat.lt_succ_iff.mp hfuel)
      show parseCore (fuel + 1) .pstr (escChar c ++ escStr cs ++ '"' :: rest) = _
      unfold escChar
      by_cases hq : c = '"'
      · subst hq
        simp [parseCore, unescChar, ihr]
      · rw [if_neg hq]
        by_cases hb : c = '\\'
        · subst hb
          simp [parseCore, unescChar, ihr]
        · rw [if_neg hb]
          by_cases hn : c = '\n'
          · subst hn
            simp [parseCore, unescChar, ihr]
          · rw [if_neg hn]
            by_cases ht : c = '\t'
            · subst ht
              simp [parseCore, unescChar, ihr]
            · rw [if_neg ht]
              by_cases hr : c = '\r'
              · subst hr
                simp [parseCore, unescChar, ihr]
              · rw [if_neg hr]
                by_cases hc : c.toNat < 32
                · rw [if_pos hc]
                  have h1 : c.toNat / 16 < 16 := by omega
                  have h2 : c.toNat % 16 < 16 := by omega
                  have hzero : hexVal '0' = some 0 := by decide
                  show parseCore (fuel + 1) .pstr ('\\' :: 'u' :: '0' :: '0' ::
                    hexChar (c.toNat / 16) :: hexChar (c.toNat % 16) ::
                    (escStr cs ++ '"' :: rest)) = _
                  simp only [parseCore, if_neg (by decide : ¬('\\' : Char) = '"'),
                    if_pos (rfl : ('\\' : Char) = '\\'), hzero,
                    hexVal_hexChar h1, hexVal_hexChar h2, ihr]
                  have hval : ((0 * 16 + 0) * 16 + c.toNat / 16) * 16 + c.toNat % 16
                      = c.toNat := by omega
                  rw [hval, Char.ofNat_toNat]
                  simp
                · rw [if_neg hc]
                  show parseCore (fuel + 1) .pstr (c :: (escStr cs ++ '"' :: rest)) = _
                  simp only [parseCore, if_neg hq, if_neg hb, if_neg hc, ihr]

/-- Input whose head cannot extend a decimal numeral. -/
def delimOk (l : List Char) : Bool :=
  match l with
  | [] => true
  | c :: _ => !isDigitC c

theorem takeDigitRun_append (ds : List Char) (hds : ∀ c ∈ ds, isDigitC c = true) :
    ∀ rest, delimOk rest = true → takeDigitRun (ds ++ rest) = (ds, rest) := by
  induction ds with
  | nil =>
    intro rest hrest
    match rest with
    | [] => rfl
    | c :: t =>
      have : isDigitC c = false := by
        unfold delimOk at hrest
        simpa using hrest
      simp [takeDigitRun, this]
  | cons d ds ih =>
    intro rest hrest
    have hd : isDigitC d = true := hds d (List.mem_cons_self d ds)
    simp only [List.cons_append, takeDigitRun, hd, if_pos, List.append_eq]
    rw [ih (fun c hc => hds c (List.mem_cons_of_mem d hc)) rest hrest]

theorem isDigitC_toNat {c : Char} (h : isDigitC c = true) :
    48 ≤ c.toNat ∧ c.toNat ≤ 57 := by
  unfold isDigitC at h
  simp only [Bool.and_eq_true, decide_eq_true_eq] at h
  exact h

/-- The first character of a rendered value: never a closer, separator or
colon, so a reader looking at a following delimiter cannot mistake it for
the start of the next value. -/
theorem render_head (v : JValue) :
    ∃ c t, render v = c :: t ∧ (c = ']') = False ∧ (c = '}') = False ∧
      (c = ',') = False ∧ (c = ':') = False := by
  match v with
  | .null => exact ⟨'n', _, rfl, by simp, by simp, by simp, by simp⟩
  | .bool true => exact ⟨'t', _, rfl, by simp, by simp, by simp, by simp⟩
  | .bool false => exact ⟨'f', _, rfl, by simp, by simp, by simp, by simp⟩
  | .str s => exact ⟨'"', _, rfl, by simp, by simp, by simp, by simp⟩
  | .arr xs => exact ⟨'[', _, rfl, by simp, by simp, by simp, by simp⟩
  | .obj fs => exact ⟨'{', _, rfl, by simp, by simp, by simp, by simp⟩
  | .num n =>
    show ∃ c t, intChars n = c :: t ∧ _
    unfold intChars
    by_cases hneg : n < 0
    · rw [if_pos hneg]
      exact ⟨'-', _, rfl, by simp, by simp, by simp, by simp⟩
    · rw [if_neg hneg]
      obtain ⟨d, ds, hds⟩ : ∃ d ds, natChars n.natAbs = d :: ds := by
        match h : natChars n.natAbs with
        | [] => exact absurd h (natChars_ne_nil _)
        | d :: ds => exact ⟨d, ds, rfl⟩
      have hd : isDigitC d = true := by
        have := natChars_all_digits n.natAbs d
        rw [hds] at this
        exact this (List.mem_cons_self d ds)
      have hrange := isDigitC_toNat hd
      refine ⟨d, ds, hds, ?_, ?_, ?_, ?_⟩ <;>
        · simp only [eq_iff_iff, iff_false]
          intro hEq
          subst hEq
          simp at hrange

theorem render_length_pos (v : JValue) : 1 ≤ (render v).length := by
  obtain ⟨c, t, h, -⟩ := render_head v
  simp [h]

theorem renderArrTail_length_pos (xs : List JValue) : 1 ≤ (renderArrTail xs).length := by
  match xs with
  | [] => simp [renderArrTail]
  | x :: xs => simp [renderArrTail]

theorem renderObjTail_length_pos (fs : List (String × JValue)) :
    1 ≤ (renderObjTail fs).length := by
  match fs with
  | [] => simp [renderObjTail]
  | f :: fs => simp [renderObjTail]

theorem renderField_length (f : String × JValue) :
    3 + (render f.2).length ≤ (renderField f).length := by
  match f with
  | (k, v) =>
    simp only [renderField, List.length_cons, List.length_append]
    omega

theorem delimOk_renderArrTail (xs : List JValue) (rest : List Char) :
    delimOk (renderArrTail xs ++ rest) = true := by
  match xs with
  | [] => rfl
  | x :: xs => rfl

theorem delimOk_renderObjTail (fs : List (String × JValue)) (rest : List Char) :
    delimOk (renderObjTail fs ++ rest) = true := by
  match fs with
  | [] => rfl
  | f :: fs => rfl

/-- A rendered numeral followed by a delimiter reads back as its value. -/
theorem pval_num (n : Int) :
    ∀ fuel rest, 1 ≤ fuel → delimOk rest = true →
      parseCore fuel .pval (intChars n ++ rest) = some (.pv (.num n), rest) := by
  intro fuel rest hfuel hrest
  match fuel, hfuel with
  | fuel + 1, _ =>
    unfold intChars
    by_cases hneg : n < 0
    · rw [if_pos hneg]
      have habs : n.natAbs ≠ 0 := by omega
      obtain ⟨d, ds, hds⟩ : ∃ d ds, natChars n.natAbs = d :: ds := by
        match h : natChars n.natAbs with
        | [] => exact absurd h (natChars_ne_nil _)
        | d :: ds => exact ⟨d, ds, rfl⟩
      have hrun : takeDigitRun (natChars n.natAbs ++ rest) = (natChars n.natAbs, rest) :=
        takeDigitRun_append _ (natChars_all_digits _) rest hrest
      rw [hds] at hrun ⊢
      show parseCore (fuel + 1) .pval ('-' :: ((d :: ds) ++ rest)) = _
      have hstep : parseCore (fuel + 1) .pval ('-' :: ((d :: ds) ++ rest)) =
          (match takeDigitRun ((d :: ds) ++ rest) with
           | ([], _) => none
           | (e :: es, r) => some (.pv (.num (-(digitsVal (e :: es) : Int))), r)) := rfl
      rw [hstep, hrun]
      have hval : digitsVal (d :: ds) = n.natAbs := by
        rw [← hds]
        exact digitsVal_natChars _
      simp only [hval]
      have habs2 : -((n.natAbs : Int)) = n := by omega
      rw [habs2]
    · rw [if_neg hneg]
      obtain ⟨d, ds, hds⟩ : ∃ d ds, natChars n.natAbs = d :: ds := by
        match h : natChars n.natAbs with
        | [] => exact absurd h (natChars_ne_nil _)
        | d :: ds => exact ⟨d, ds, rfl⟩
      have hd : isDigitC d = true := by
        have := natChars_all_digits n.natAbs d
        rw [hds] at this
        exact this (List.mem_cons_self d ds)
      have hrange := isDigitC_toNat hd
      have hrun : takeDigitRun (natChars n.natAbs ++ rest) = (natChars n.natAbs, rest) :=
        takeDigitRun_append _ (natChars_all_digits _) rest hrest
      rw [hds] at hrun ⊢
      show parseCore (fuel + 1) .pval (d :: (ds ++ rest)) = _
      have hne : ∀ x : Char, x.toNat < 48 ∨ 57 < x.toNat → (d = x) = False := by
        intro x hx
        simp only [eq_iff_iff, iff_false]
        intro hEq
        subst hEq
        omega
      simp only [parseCore, hne 'n' (by right; decide), hne 't' (by right; decide),
        hne 'f' (by right; decide), hne '"' (by left; decide),
        hne '[' (by right; decide), hne '{' (by right; decide),
        hne '-' (by left; decide), if_false, hd, if_true, if_pos]
      have hcons : d :: (ds ++ rest) = (d :: ds) ++ rest := rfl
      rw [hcons, hrun]
      have hval : digitsVal (d :: ds) = n.natAbs := by
        rw [← hds]
        exact digitsVal_natChars _
      rw [hval]
      have : (n.natAbs : Int) = n := by omega
      rw [this]

/-- The round trip, one conjunct per reading mode: text rendered from a
value (or from an element/member tail) followed by any fitting remainder is
read back as exactly that value, whenever the fuel exceeds the rendered
length.  Strong induction on the fuel: every recursive call of `parseCore`
consumes one unit. -/
theorem parse_render_all : ∀ fuel : Nat,
    (∀ v rest, (render v).length + 1 ≤ fuel → delimOk rest = true →
      parseCore fuel .pval (render v ++ rest) = some (.pv v, rest)) ∧
    (∀ xs rest, (renderArrBody xs).length + 1 ≤ fuel →
      parseCore fuel .parrFirst (renderArrBody xs ++ rest) = some (.plist xs, rest)) ∧
    (∀ xs rest, (renderArrTail xs).length + 1 ≤ fuel →
      parseCore fuel .parrTail (renderArrTail xs ++ rest) = some (.plist xs, rest)) ∧
    (∀ fs rest, (renderObjBody fs).length + 1 ≤ fuel →
      parseCore fuel .pobjFirst (renderObjBody fs ++ rest) = some (.pflds fs, rest)) ∧
    (∀ fs rest, (renderObjTail fs).length + 1 ≤ fuel →
      parseCore fuel .pobjTail (renderObjTail fs ++ rest) = some (.pflds fs, rest)) ∧
    (∀ k v rest, (renderField (k, v)).length + 1 ≤ fuel → delimOk rest = true →
      parseCore fuel .pfield (renderField (k, v) ++ rest) = some (.pone k v, rest)) := by
  intro fuel
  induction fuel using Nat.strong_induction_on with
  | _ fuel ih =>
    match fuel with
    | 0 =>
      refine ⟨?_, ?_, ?_, ?_, ?_, ?_⟩ <;> intro a b hle <;> omega
    | F + 1 =>
      obtain ⟨ihVal, ihArrB, ihArrT, ihObjB, ihObjT, ihFld⟩ := ih F (Nat.lt_succ_self F)
      refine ⟨?_, ?_, ?_, ?_, ?_, ?_⟩
      · -- .pval
        intro v rest hfuel hrest
        match v with
        | .null => rfl
        | .bool true => rfl
        | .bool false => rfl
        | .num n => exact pval_num n (F + 1) rest (by omega) hrest
        | .str s =>
          show parseCore (F + 1) .pval (('"' :: (escStr s.data ++ ['"'])) ++ rest) = _
          have hshape : ('"' :: (escStr s.data ++ ['"'])) ++ rest =
              '"' :: (escStr s.data ++ '"' :: rest) := by simp
          rw [hshape]
          have hstep : parseCore (F + 1) .pval ('"' :: (escStr s.data ++ '"' :: rest)) =
              (match parseCore F .pstr (escStr s.data ++ '"' :: rest) with
               | some (.pchars cs, r) => some (.pv (.str (String.mk cs)), r)
               | _ => none) := rfl
          rw [hstep]
          have hlen : s.data.length + 1 ≤ F := by
            have h1 := escStr_length s.data
            simp only [render, List.length_cons, List.length_append,
              List.length_singleton] at hfuel
            omega
          rw [pstr_escStr s.data F rest hlen]
        | .arr xs =>
          show parseCore (F + 1) .pval (('[' :: renderArrBody xs) ++ rest) = _
          have hstep : parseCore (F + 1) .pval ('[' :: (renderArrBody xs ++ rest)) =
              (match parseCore F .parrFirst (renderArrBody xs ++ rest) with
               | some (.plist vs, r) => some (.pv (.arr vs), r)
               | _ => none) := rfl
          rw [List.cons_append, hstep]
          have hlen : (renderArrBody xs).length + 1 ≤ F := by
            simp only [render, List.length_cons] at hfuel
            omega
          rw [ihArrB xs rest hlen]
        | .obj fs =>
          show parseCore (F + 1) .pval (('{' :: renderObjBody fs) ++ rest) = _
          have hstep : parseCore (F + 1) .pval ('{' :: (renderObjBody fs ++ rest)) =
              (match parseCore F .pobjFirst (renderObjBody fs ++ rest) with
               | some (.pflds gs, r) => some (.pv (.obj gs), r)
               | _ => none) := rfl
          rw [List.cons_append, hstep]
          have hlen : (renderObjBody fs).length + 1 ≤ F := by
            simp only [render, List.length_cons] at hfuel
            omega
          rw [ihObjB fs rest hlen]
      · -- .parrFirst
        intro xs rest hfuel
        match xs with
        | [] => rfl
        | x :: xs =>
          show parseCore (F + 1) .parrFirst ((render x ++ renderArrTail xs) ++ rest) = _
          obtain ⟨c, t, hrender, hc1, hc2, hc3, hc4⟩ := render_head x
          have hlen1 : 1 ≤ (render x).length := render_length_pos x
          have hlen2 : 1 ≤ (renderArrTail xs).length := renderArrTail_length_pos xs
          simp only [renderArrBody, List.length_append] at hfuel
          have hshape : (render x ++ renderArrTail xs) ++ rest =
              c :: (t ++ (renderArrTail xs ++ rest)) := by
            rw [hrender]; simp
          rw [hshape]
          simp only [parseCore, hc1, if_false]
          have hback : c :: (t ++ (renderArrTail xs ++ rest)) =
              render x ++ (renderArrTail xs ++ rest) := by
            rw [hrender]; simp
          rw [hback]
          rw [ihVal x (renderArrTail xs ++ rest)
            (by rw [hrender] at hfuel ⊢; simp at hfuel ⊢; omega)
            (delimOk_renderArrTail xs rest)]
          show (match parseCore F PMode.parrTail (renderArrTail xs ++ rest) with
                | some (PTag.plist vs, r2) => some (PTag.plist (x :: vs), r2)
                | _ => none) = some (PTag.plist (x :: xs), rest)
          rw [ihArrT xs rest (by omega)]
      · -- .parrTail
        intro xs rest hfuel
        match xs with
        | [] => rfl
        | x :: xs =>
          show parseCore (F + 1) .parrTail ((',' :: (render x ++ renderArrTail xs)) ++ rest) = _
          have hshape : ((',' :: (render x ++ renderArrTail xs)) ++ rest) =
              ',' :: (render x ++ (renderArrTail xs ++ rest)) := by simp
          rw [hshape]
          have hstep : parseCore (F + 1) .parrTail
              (',' :: (render x ++ (renderArrTail xs ++ rest))) =
              (match parseCore F .pval (render x ++ (renderArrTail xs ++ rest)) with
               | some (.pv v, r) =>
                 (match parseCore F .parrTail r with
                  | some (.plist vs, r2) => some (.plist (v :: vs), r2)
                  | _ => none)
               | _ => none) := rfl
          rw [hstep]
          have hlen2 : 1 ≤ (renderArrTail xs).length := renderArrTail_length_pos xs
          simp only [renderArrTail, List.length_cons, List.length_append] at hfuel
          rw [ihVal x (renderArrTail xs ++ rest) (by omega) (delimOk_renderArrTail xs rest)]
          show (match parseCore F PMode.parrTail (renderArrTail xs ++ rest) with
                | some (PTag.plist vs, r2) => some (PTag.plist (x :: vs), r2)
                | _ => none) = some (PTag.plist (x :: xs), rest)
          rw [ihArrT xs rest (by omega)]
      · -- .pobjFirst
        intro fs rest hfuel
        match fs with
        | [] => rfl
        | (k, v) :: fs =>
          show parseCore (F + 1) .pobjFirst ((renderField (k, v) ++ renderObjTail fs) ++ rest) = _
          have hshape : (renderField (k, v) ++ renderObjTail fs) ++ rest =
              '"' :: ((escStr k.data ++ '"' :: ':' :: render v) ++ (renderObjTail fs ++ rest)) := by
            simp [renderField]
          rw [hshape]
          have hstep : parseCore (F + 1) .pobjFirst
              ('"' :: ((escStr k.data ++ '"' :: ':' :: render v) ++ (renderObjTail fs ++ rest))) =
              (match parseCore F .pfield
                ('"' :: ((escStr k.data ++ '"' :: ':' :: render v) ++ (renderObjTail fs ++ rest))) with
               | some (.pone k2 v2, r) =>
                 (match parseCore F .pobjTail r with
                  | some (.pflds gs, r2) => some (.pflds ((k2, v2) :: gs), r2)
                  | _ => none)
               | _ => none) := rfl
          rw [hstep]
          have hfld : ('"' :: ((escStr k.data ++ '"' :: ':' :: render v) ++ (renderObjTail fs ++ rest))) =
              renderField (k, v) ++ (renderObjTail fs ++ rest) := by
            simp [renderField]
          rw [hfld]
          have hlen2 : 1 ≤ (renderObjTail fs).length := renderObjTail_length_pos fs
          have hlenF : 3 + (render v).length ≤ (renderField (k, v)).length :=
            renderField_length (k, v)
          have hlenV : 1 ≤ (render v).length := render_length_pos v
          simp only [renderObjBody, List.length_append] at hfuel
          rw [ihFld k v (renderObjTail fs ++ rest) (by omega) (delimOk_renderObjTail fs rest)]
          show (match parseCore F PMode.pobjTail (renderObjTail fs ++ rest) with
                | some (PTag.pflds gs, r2) => some (PTag.pflds ((k, v) :: gs), r2)
                | _ => none) = some (PTag.pflds ((k, v) :: fs), rest)
          rw [ihObjT fs rest (by omega)]
      · -- .pobjTail
        intro fs rest hfuel
        match fs with
        | [] => rfl
        | (k, v) :: fs =>
          show parseCore (F + 1) .pobjTail ((',' :: (renderField (k, v) ++ renderObjTail fs)) ++ rest) = _
          have hshape : (',' :: (renderField (k, v) ++ renderObjTail fs)) ++ rest =
              ',' :: (renderField (k, v) ++ (renderObjTail fs ++ rest)) := by simp
          rw [hshape]
          have hstep : parseCore (F + 1) .pobjTail
              (',' :: (renderField (k, v) ++ (renderObjTail fs ++ rest))) =
              (match parseCore F .pfield (renderField (k, v) ++ (renderObjTail fs ++ rest)) with
               | some (.pone k2 v2, r) =>
                 (match parseCore F .pobjTail r with
                  | some (.pflds gs, r2) => some (.pflds ((k2, v2) :: gs), r2)
                  | _ => none)
               | _ => none) := rfl
          rw [hstep]
          have hlen2 : 1 ≤ (renderObjTail fs).length := renderObjTail_length_pos fs
          have hlenF : 3 + (render v).length ≤ (renderField (k, v)).length :=
            renderField_length (k, v)
          have hlenV : 1 ≤ (render v).length := render_length_pos v
          simp only [renderObjTail, List.length_cons, List.length_append] at hfuel
          rw [ihFld k v (renderObjTail fs ++ rest) (by omega) (delimOk_renderObjTail fs rest)]
          show (match parseCore F PMode.pobjTail (renderObjTail fs ++ rest) with
                | some (PTag.pflds gs, r2) => some (PTag.pflds ((k, v) :: gs), r2)
                | _ => none) = some (PTag.pflds ((k, v) :: fs), rest)
          rw [ihObjT fs rest (by omega)]
      · -- .pfield
        intro k v rest hfuel hrest
        show parseCore (F + 1) .pfield (('"' :: (escStr k.data ++ '"' :: ':' :: render v)) ++ rest) = _
        have hshape : ('"' :: (escStr k.data ++ '"' :: ':' :: render v)) ++ rest =
            '"' :: (escStr k.data ++ '"' :: (':' :: (render v ++ rest))) := by simp
        rw [hshape]
        have hstep : parseCore (F + 1) .pfield
            ('"' :: (escStr k.data ++ '"' :: (':' :: (render v ++ rest)))) =
            (match parseCore F .pstr (escStr k.data ++ '"' :: (':' :: (render v ++ rest))) with
             | some (.pchars ks, r) =>
               (match r with
                | ':' :: r2 =>
                  (match parseCore F .pval r2 with
                   | some (.pv v2, r3) => some (.pone (String.mk ks) v2, r3)
                   | _ => none)
                | _ => none)
             | _ => none) := rfl
        rw [hstep]
        have hlen1 := escStr_length k.data
        simp only [renderField, List.length_cons, List.length_append] at hfuel
        rw [pstr_escStr k.data F (':' :: (render v ++ rest)) (by omega)]
        show (match parseCore F PMode.pval (render v ++ rest) with
              | some (PTag.pv v2, r3) => some (PTag.pone (String.mk k.data) v2, r3)
              | _ => none) = some (PTag.pone k v, rest)
        rw [ihVal v rest (by omega) hrest]

/-- Reading back what was written: `JSON.parse` of `JSON.stringify` of any
value yields exactly that value. -/
theorem jsonParse_jsonStringify (v : JValue) : jsonParse (jsonStringify v) = some v := by
  unfold jsonParse jsonStringify
  have hdata : (String.mk (render v)).data = render v := rfl
  rw [hdata]
  have h := (parse_render_all ((render v).length + 1)).1 v [] (le_refl _) rfl
  rw [List.append_nil] at h
  rw [h]

/-!
The JavaScript value layer.  A runtime value is modelled by how
`JSON.stringify` treats it: it yields text, yields `undefined` (for
`undefined` and functions), or throws (self-referential structures).
-/

/-- A JavaScript runtime value, classified by its serialization behavior. -/
inductive JSVal where
  | fromJson (v : JValue)
  | undef
  | circular

/-- Outcome of `JSON.stringify` applied to a JavaScript value. -/
inductive StringifyOut where
  | ok (s : String)
  | undefOut
  | thrown (msg : String)

/-- The message of the `TypeError` thrown when serializing a cycle. -/
def circularJsonMsg : String := "Converting circular structure to JSON"

/-- `JSON.stringify` on a JavaScript value: text for serializable values,
`undefined` for `undefined`, a `TypeError` for cycles. -/
def jsJsonStringify : JSVal → StringifyOut
  | .fromJson v => .ok (jsonStringify v)
  | .undef => .undefOut
  | .circular => .thrown circularJsonMsg

/-- `typeof` of a JavaScript value. -/
def jsTypeof : JSVal → String
  | .fromJson (.str _) => "string"
  | .fromJson (.num _) => "number"
  | .fromJson (.bool _) => "boolean"
  | .fromJson _ => "object"
  | .undef => "undefined"
  | .circular => "object"

/-- JavaScript truthiness of a JSON value. -/
def jvTruthy : JValue → Bool
  | .null => false
  | .bool b => b
  | .num n => decide (n ≠ 0)
  | .str s => decide (s ≠ "")
  | .arr _ => true
  | .obj _ => true

mutual

/-- JavaScript string coercion `String(v)` of a JSON value (arrays join
their element coercions with commas; a `null` inside an array displays as
an empty slot in JavaScript, a corner the model does not reproduce). -/
def jvDisplay : JValue → String
  | .str s => s
  | .num n => String.mk (intChars n)
  | .bool true => "true"
  | .bool false => "false"
  | .null => "null"
  | .arr xs => jvDisplayList xs
  | .obj _ => "[object Object]"

/-- Comma-joined display of array elements. -/
def jvDisplayList : List JValue → String
  | [] => ""
  | [x] => jvDisplay x
  | x :: y :: xs => jvDisplay x ++ "," ++ jvDisplayList (y :: xs)

end

/-- Property lookup on a parsed JSON object.  `JSON.parse` assigns repeated
keys in order, so the last occurrence wins. -/
def objField (fs : List (String × JValue)) (k : String) : Option JValue :=
  (fs.reverse.find? (fun f => f.1 == k)).map (fun f => f.2)

/-!
The function store (`generated_functions_js/` in the source): a mapping from
file name to file state.  `FUNCTION_CODE_DIR` itself is a fixed prefix every
operation shares, so paths are modelled by their file-name component
`name + ".json"`.
-/

/-- State of one stored file: readable text, or a file whose read throws. -/
inductive FileEntry where
  | content (text : String)
  | unreadable

/-- The store directory: file name to file state. -/
def FS : Type := String → Option FileEntry

/-- The empty store directory. -/
def emptyFS : FS := fun _ => none

/-- `path.join(FUNCTION_CODE_DIR, name + ".json")`, modulo the shared
directory prefix. -/
def funcFileName (name : String) : String := name ++ ".json"

/-- `fs.writeFileSync`: replace the named file's content. -/
def fsWrite (fsys : FS) (fname : String) (text : String) : FS :=
  fun f => if f = fname then some (.content text) else fsys f

/-- Does the file name end in `.json`? -/
def isJsonFile (fname : String) : Bool :=
  decide (5 ≤ fname.data.length) &&
    decide (fname.data.drop (fname.data.length - 5) = ".json".data)

/-- `clear_function_store_js` (lines 70-83): unlink every file of the store
directory whose name ends in `.json`, keeping everything else. -/
def clear_function_store_js (fsys : FS) : FS :=
  fun f => if isJsonFile f then none else fsys f

/-- The persisted record (lines 249-255 and 301-307): the five fields both
writers store, the parameter schema already serialized to text. -/
structure FuncData where
  name : String
  description : String
  parameters_schema_json : String
  code_string : String
  is_internal_special_function : Bool

/-- The record as the JSON object the file holds. -/
def funcDataToJ (fd : FuncData) : JValue :=
  .obj [("name", .str fd.name),
        ("description", .str fd.description),
        ("parameters_schema_json", .str fd.parameters_schema_json),
        ("code_string", .str fd.code_string),
        ("is_internal_special_function", .bool fd.is_internal_special_function)]

/-- The storage step both writers share (lines 256-257, 300-308):
`fs.writeFileSync(path.join(dir, name + ".json"), JSON.stringify(funcData))`. -/
def putFuncData (fsys : FS) (fd : FuncData) : FS :=
  fsWrite fsys (funcFileName fd.name) (jsonStringify (funcDataToJ fd))

/-- What `get_function_definition_js` returns when it succeeds: the parsed
record's fields, spread together with the reparsed `parameters_schema`. -/
structure FuncDefView where
  fields : List (String × JValue)
  parameters_schema : JValue

def FuncDefView.nameField (d : FuncDefView) : Option JValue := objField d.fields "name"

def FuncDefView.descriptionField (d : FuncDefView) : Option JValue :=
  objField d.fields "description"

def FuncDefView.schemaJsonField (d : FuncDefView) : Option JValue :=
  objField d.fields "parameters_schema_json"

def FuncDefView.codeStringField (d : FuncDefView) : Option JValue :=
  objField d.fields "code_string"

def FuncDefView.isInternalField (d : FuncDefView) : Option JValue :=
  objField d.fields "is_internal_special_function"

/-- `get_function_definition_js` (lines 318-334): look the file up; a missing
file, an unreadable file, or file text `JSON.parse` rejects gives `null` (the
`catch` at line 328); otherwise the parsed record is returned spread together
with `JSON.parse` of its `parameters_schema_json` field.  When that field is
a primitive, `JSON.parse` coerces it to a string first, which reparses
numbers, booleans and `null` to themselves; a missing field or a top-level
non-object record leaves the field `undefined`, whose coercion `"undefined"`
makes `JSON.parse` throw into the same `catch`.  (An array field's coercion
joins elements with commas, which the model uniformly treats as a parse
failure; single-element numeric arrays, which JavaScript would reparse, are a
corner this program never writes.) -/
def get_function_definition_js (fsys : FS) (function_name : String) : Option FuncDefView :=
  match fsys (funcFileName function_name) with
  | none => none
  | some .unreadable => none
  | some (.content text) =>
    match jsonParse text with
    | none => none
    | some (.obj fs) =>
      match objField fs "parameters_schema_json" with
      | some (.str sj) =>
        (match jsonParse sj with
         | some ps => some ⟨fs, ps⟩
         | none => none)
      | some (.num k) => some ⟨fs, .num k⟩
      | some (.bool b) => some ⟨fs, .bool b⟩
      | some .null => some ⟨fs, .null⟩
      | _ => none
    | some _ => none

/-!
The synthesis and repair loop of `create_dynamic_function` (lines 172-264).
The two collaborators the loop drives are external to the program and enter
the model as parameters: the LLM (one call per loop iteration, indexed by
call count) and the V8 parser behind `new vm.Script(...)`.
-/

/-- The composed syntax-check script (lines 212-220 and 281-289): determined
by the candidate code embedded in it and the expected function name spliced
into it.  `new vm.Script` only compiles this text; none of its statements
(in particular the embedded `typeof` check-and-throw) runs at validation
time. -/
structure CheckScript where
  entry_name : String
  body : String

/-- The validation step both `create_dynamic_function` and
`store_predefined_function_js` perform: hand the composed script to the V8
parser (`vmCompile`; `none` = compiles, `some m` = SyntaxError with message
`m`) and report its verdict.  Because construction of a `vm.Script` parses
but never executes, the verdict depends only on parse-validity of the
composed text. -/
def validateCandidate (vmCompile : CheckScript → Option String)
    (name code : String) : Option String :=
  vmCompile ⟨name, code⟩

/-- One LLM call's outcome: usable text, an empty/missing completion, or a
thrown error (network failure and the like). -/
inductive LLMResult where
  | ok (text : String)
  | empty
  | err (msg : String)

/-- The argument tuple `_generateJSFunctionCreationPrompt` is applied to
(lines 85-112, 187-191).  The function branches on `is_repair`: a repair
prompt embeds `previous_code` and `error_message` under a distinct fixed
preamble, a synthesis prompt embeds the specification, so prompts with
different `is_repair` flags are distinct texts. -/
structure PromptArgs where
  name : String
  description : String
  parameters_schema : JValue
  host_provided_api_description : String
  is_repair : Bool
  previous_code : String
  error_message : Option String

/-- `this.MAX_SYNTAX_REPAIR_RETRIES` (line 57). -/
def MAX_SYNTAX_REPAIR_RETRIES : Nat := 3

def missingArgsMsg : String := "Error: Missing required arguments for JS function creation."

def invalidNameMsg (name : String) : String :=
  "Error: Invalid JS function name '" ++ name ++ "'."

def emptyLLMMsg : String := "LLM returned empty code string."

def synthesisFailMsg (name lastErr : String) : String :=
  "Error: Failed to generate/validate JS code for " ++ name ++ " after " ++
    Nat.repr (MAX_SYNTAX_REPAIR_RETRIES + 1) ++ " attempt(s). Last error: " ++ lastErr

def createSuccessMsg (name : String) : String :=
  "Successfully created/updated JS dynamic function: " ++ name

/-- The JavaScript identifier test of line 177:
`/^[a-zA-Z_$][0-9a-zA-Z_$]*$/`. -/
def isJsIdStart (c : Char) : Bool := c.isAlpha || c = '_' || c = '$'

def isJsIdChar (c : Char) : Bool := c.isAlphanum || c = '_' || c = '$'

def isValidJsName (s : String) : Bool :=
  match s.data with
  | [] => false
  | c :: cs => isJsIdStart c && cs.all isJsIdChar

/-- The sanitization of line 208,
`replace(/^```javascript|```$/g, '').trim()`: drop a leading
` ```javascript ` fence and a trailing ` ``` ` fence, then trim. -/
def dropLeadFence (cs : List Char) : List Char :=
  if cs.take 13 = "```javascript".data then cs.drop 13 else cs

def dropEndFence (cs : List Char) : List Char :=
  if 3 ≤ cs.length ∧ cs.drop (cs.length - 3) = "```".data then
    cs.take (cs.length - 3)
  else cs

/-- The whitespace `trim()` strips (the common ASCII set). -/
def isWsC (c : Char) : Bool := c = ' ' || c = '\n' || c = '\t' || c = '\r'

def trimChars (cs : List Char) : List Char :=
  ((cs.dropWhile isWsC).reverse.dropWhile isWsC).reverse

def stripFences (s : String) : String :=
  String.mk (trimChars (dropEndFence (dropLeadFence s.data)))

/-- The oracle and parser the loop consults, plus the configured
description getter (`this.host_api_description_getter`, `none` when the
store was never initialized). -/
structure SynthEnv where
  vmCompile : CheckScript → Option String
  oracle : Nat → LLMResult
  host_api_description : Option String

/-- Line 189's fallback chain for the prompt's API description:
the per-call argument when truthy, else the configured getter's text,
else the fixed fallback. -/
def apiDescriptionArg (env : SynthEnv) (override : Option String) : String :=
  match override with
  | some s => if s = "" then env.host_api_description.getD "No host APIs provided." else s
  | none => env.host_api_description.getD "No host APIs provided."

/-- The loop's mutable locals (lines 181-183). -/
structure LoopState where
  generated_code_string : String
  last_error : Option String
  sanitized_code : String

/-- How the `for` loop of lines 185-240 ended: a validated candidate, or
the attempt budget exhausted with the last error recorded. -/
inductive LoopOut where
  | success (st : LoopState) (prompts : List PromptArgs) (calls : Nat)
  | exhausted (st : LoopState) (prompts : List PromptArgs) (calls : Nat)

/-- The `for` loop of lines 185-240, one iteration per unit of `remaining`:
build the prompt (`is_repair` exactly when `attempt > 0`, seeded with the
current `generated_code_string` and `last_error`), call the LLM, and either
record the failure and continue (a thrown call leaves
`generated_code_string` unchanged; an empty completion resets it), or
sanitize and validate, breaking out on the first candidate the validator
accepts. -/
def synthRepairLoop (env : SynthEnv) (name desc : String) (schema : JValue)
    (apiDesc : String) :
    Nat → Nat → LoopState → List PromptArgs → Nat → LoopOut
  | 0, _, st, ps, calls => .exhausted st ps calls
  | remaining + 1, attempt, st, ps, calls =>
    let p : PromptArgs :=
      ⟨name, desc, schema, apiDesc, decide (0 < attempt),
        st.generated_code_string, st.last_error⟩
    match env.oracle calls with
    | .err m =>
      synthRepairLoop env name desc schema apiDesc remaining (attempt + 1)
        { st with last_error := some m } (ps ++ [p]) (calls + 1)
    | .empty =>
      synthRepairLoop env name desc schema apiDesc remaining (attempt + 1)
        { generated_code_string := "", last_error := some emptyLLMMsg,
          sanitized_code := st.sanitized_code } (ps ++ [p]) (calls + 1)
    | .ok text =>
      let sanitized := stripFences text
      match validateCandidate env.vmCompile name sanitized with
      | none => .success ⟨text, none, sanitized⟩ (ps ++ [p]) (calls + 1)
      | some m =>
        synthRepairLoop env name desc schema apiDesc remaining (attempt + 1)
          ⟨text, some m, sanitized⟩ (ps ++ [p]) (calls + 1)

/-- What one `create_dynamic_function` call did: the string it returned, how
many LLM calls it made, the prompt arguments of each, and the record it
stored (if any). -/
structure CreateTrace where
  ret : String
  oracleCalls : Nat
  prompts : List PromptArgs
  stored : Option FuncData

/-- `create_dynamic_function` (lines 172-264): reject missing/falsy
arguments, reject an invalid identifier, then run the synthesis/repair loop
for `MAX_SYNTAX_REPAIR_RETRIES + 1` iterations; on success store the record
(schema serialized, `is_internal_special_function: false`) and report
success, otherwise report the failure with the attempt count and last
error. -/
def create_dynamic_function (env : SynthEnv)
    (new_function_name new_function_description : String)
    (new_function_parameters_schema : Option JValue)
    (host_provided_api_description_for_new_func : Option String) : CreateTrace :=
  match new_function_parameters_schema with
  | none => ⟨missingArgsMsg, 0, [], none⟩
  | some schema =>
    if new_function_name = "" ∨ new_function_description = "" ∨ jvTruthy schema = false then
      ⟨missingArgsMsg, 0, [], none⟩
    else if ¬ isValidJsName new_function_name then
      ⟨invalidNameMsg new_function_name, 0, [], none⟩
    else
      match synthRepairLoop env new_function_name new_function_description schema
          (apiDescriptionArg env host_provided_api_description_for_new_func)
          (MAX_SYNTAX_REPAIR_RETRIES + 1) 0 ⟨"", none, ""⟩ [] 0 with
      | .exhausted st ps calls =>
        ⟨synthesisFailMsg new_function_name (st.last_error.getD ""), calls, ps, none⟩
      | .success st ps calls =>
        ⟨createSuccessMsg new_function_name, calls, ps,
          some ⟨new_function_name, new_function_description, jsonStringify schema,
            st.sanitized_code, false⟩⟩

def predefMissingMsg (name : String) : String :=
  "Error: Missing required fields in funcData for " ++ name ++
    ". Required: name, description, parameters_schema_json, code_string."

def predefSynErrMsg (name m : String) : String :=
  "Error: Syntax error in predefined function " ++ name ++ ": " ++ m

def predefSuccessMsg (name : String) : String :=
  "Successfully stored predefined JS function: " ++ name

/-- What one `store_predefined_function_js` call did. -/
structure PredefResult where
  ret : String
  stored : Option FuncData

/-- The input record of `store_predefined_function_js`. -/
structure PredefFuncData where
  name : String
  description : String
  parameters_schema_json : String
  code_string : String

/-- `store_predefined_function_js` (lines 266-316): reject missing/empty
fields and invalid names, validate the given code through the same
compile-only check, then store the record with
`is_internal_special_function: false`. -/
def store_predefined_function_js (vmCompile : CheckScript → Option String)
    (funcData : PredefFuncData) : PredefResult :=
  if funcData.name = "" ∨ funcData.description = "" ∨
      funcData.parameters_schema_json = "" ∨ funcData.code_string = "" then
    ⟨predefMissingMsg (if funcData.name = "" then "unnamed function" else funcData.name),
     none⟩
  else if ¬ isValidJsName funcData.name then
    ⟨invalidNameMsg funcData.name, none⟩
  else
    match validateCandidate vmCompile funcData.name funcData.code_string with
    | some m => ⟨predefSynErrMsg funcData.name m, none⟩
    | none =>
      ⟨predefSuccessMsg funcData.name,
       some ⟨funcData.name, funcData.description, funcData.parameters_schema_json,
         funcData.code_string, false⟩⟩

/-!
The sandbox executor `execute_dynamic_function` (lines 336-426).
-/

/-- `FUNCTION_CREATION_TOOL_DEFINITION_JS.name` (line 19). -/
def FUNCTION_CREATION_TOOL_NAME : String := "create_dynamic_function"

/-- A value bound into the sandbox context (lines 374-390): the parameters,
the capability registry, or one of the fixed utilities. -/
inductive SbVal where
  | paramsVal (p : JSVal)
  | apisVal (names : List String)
  | jsonUtil
  | uuidUtil
  | mathUtil
  | consoleUtil
  | setTimeoutUtil
  | clearTimeoutUtil
  | setIntervalUtil
  | clearIntervalUtil
  | promiseUtil

/-- The sandbox object of lines 374-390, in source order: exactly `params`,
`external_apis`, `JSON`, `uuidv4`, `Math`, the redirected `console`, the
four timer functions and `Promise` — nothing else is injected.  (Any vm
context also carries the engine's own ECMAScript intrinsics, `Object` and
the like; the Node facilities `require`, `fs` and `process` are not
intrinsics and exist in a context only if the sandbox binds them, which
this one does not.) -/
def mkSandbox (params : JSVal) (external_apis : List String) : List (String × SbVal) :=
  [("params", .paramsVal params),
   ("external_apis", .apisVal external_apis),
   ("JSON", .jsonUtil),
   ("uuidv4", .uuidUtil),
   ("Math", .mathUtil),
   ("console", .consoleUtil),
   ("setTimeout", .setTimeoutUtil),
   ("clearTimeout", .clearTimeoutUtil),
   ("setInterval", .setIntervalUtil),
   ("clearInterval", .clearIntervalUtil),
   ("Promise", .promiseUtil)]

/-- Name resolution against the sandbox context: the bound value, or `none`
when the name is not bound (a reference then fails with a ReferenceError
rather than finding an ambient facility). -/
def sandboxLookup (sb : List (String × SbVal)) (n : String) : Option SbVal :=
  (sb.find? (fun e => e.1 == n)).map (fun e => e.2)

/-- How the promise produced by the wrapped async IIFE eventually behaves. -/
inductive AsyncOutcome where
  | resolves (v : JSVal)
  | rejects (msg : String)
  | neverResolves

/-- What running the wrapped script synchronously does: produce the IIFE's
promise, or throw before producing it (a syntax error in the embedded code,
for instance). -/
inductive ScriptRun where
  | promise (a : AsyncOutcome)
  | syncThrow (msg : String)

/-- The wrapped code of lines 394-402 is determined by the stored code
spliced into the fixed template together with the function name; its
behavior when evaluated is the engine's and enters the model as the
`evalRun` parameter. -/
structure WrappedScript where
  function_name : String
  code_string : String

/-- Everything `execute_dynamic_function` consults: the synthesis
collaborators (for the internal creation branch), the store directory, the
configured capability registry (`this.host_api_execution_dict_getter`), and
the V8 engine's evaluation of a wrapped script in a sandbox context. -/
structure ExecEnv where
  synth : SynthEnv
  fsys : FS
  hostApis : List String
  evalRun : List (String × SbVal) → WrappedScript → ScriptRun

/-- What a call of `execute_dynamic_function` does, seen by its caller:
the async function's promise resolves with a value, never settles, or
rejects — `thrown` models a throw out of the async body, which reaches the
caller as a rejection of the returned promise. -/
inductive ExecResult where
  | returns (v : JSVal)
  | diverges
  | thrown (msg : String)

/-- A JavaScript string result. -/
def jstr (s : String) : JSVal := .fromJson (.str s)

def notFoundMsg (name : String) : String :=
  "Error: JS Function '" ++ name ++ "' not found or has no code."

def execFailMsg (name m : String) : String :=
  "Error: Failed to execute dynamic JS function " ++ name ++ ". Details: " ++ m

def unserializableMsg (name tyname : String) : String :=
  "Error: Dynamic function " ++ name ++
    " returned a complex object that could not be serialized. Original type: " ++ tyname

def missingParamMsg (arg fname : String) : String :=
  "Error: Missing required parameter '" ++ arg ++ "' for " ++ fname ++ "."

def internalFailMsg (fname m : String) : String :=
  "Error: Failed to execute internal JS function " ++ fname ++ ". " ++ m

/-- The `TypeError` of `JSON.stringify(undefined).substring(0, 100)`. -/
def undefSubstringMsg : String :=
  "Cannot read properties of undefined (reading 'substring')"

/-- The `TypeError` of reading a property of `null` in the creation branch. -/
def nullPropMsg : String :=
  "Cannot read properties of null (reading 'host_provided_api_description_for_new_func')"

/-- A present tool-call argument as the string `create_dynamic_function`
receives: a falsy value behaves like the empty string under the falsy-check,
a truthy one like its string coercion.  (The hosting layer delivers these
arguments as strings; non-string corners follow the coercion.) -/
def argString (v : Option JValue) : String :=
  match v with
  | some v => if jvTruthy v then jvDisplay v else ""
  | none => ""

/-- A present tool-call argument as the optional API-description string:
a falsy value falls through `||` exactly like an empty string. -/
def argOptString (v : Option JValue) : Option String :=
  match v with
  | some v => if jvTruthy v then some (jvDisplay v) else some ""
  | none => none

/-- The sandbox phase of `execute_dynamic_function` (lines 370-425): pick
the capability registry (the override when one was passed, else the
configured one), build the sandbox context, evaluate the wrapped script and
settle its promise.  A synchronous throw and a rejection are caught at line
422 and reported as an error string; a promise that never settles is
awaited forever (the `timeout: 15000` at line 406 is an option the
`vm.Script` constructor does not define, and `runInContext` at line 410 is
called with no options, so no deadline guards the `await`); a resolved
non-string is serialized, `JSON.stringify`'s `undefined` result being
returned as it is (line 415) and a serialization throw being reported as
the unserializable-result error (lines 416-419). -/
def runSandbox (env : ExecEnv) (function_name code_string : String) (params : JSVal)
    (override : Option (List String)) : ExecResult :=
  let external_apis := match override with | some d => d | none => env.hostApis
  let sandbox := mkSandbox params external_apis
  match env.evalRun sandbox ⟨function_name, code_string⟩ with
  | .syncThrow m => .returns (jstr (execFailMsg function_name m))
  | .promise a =>
    match a with
    | .neverResolves => .diverges
    | .rejects m => .returns (jstr (execFailMsg function_name m))
    | .resolves v =>
      match v with
      | .fromJson (.str s) => .returns (jstr s)
      | _ =>
        match jsJsonStringify v with
        | .ok s => .returns (jstr s)
        | .undefOut => .returns .undef
        | .thrown _ => .returns (jstr (unserializableMsg function_name (jsTypeof v)))

/-- `execute_dynamic_function` (lines 336-426).  The debug template of line
337 evaluates `JSON.stringify(params_for_function).substring(0, 100)` before
anything else and outside every `try`, so a cyclic `params` throws there and
an `undefined` `params` throws calling `.substring` on `undefined`.  Then
the reserved creation name routes to `create_dynamic_function` (its `try`
catching the property read on `null`), and every other name goes through
the store lookup — `null` from `get_function_definition_js`, like a missing
or falsy `code_string` field, yields the not-found string — and on to the
sandbox phase. -/
def execute_dynamic_function (env : ExecEnv) (function_name : String)
    (params_for_function : JSVal)
    (external_apis_dict_override : Option (List String)) : ExecResult :=
  match params_for_function with
  | .undef => .thrown undefSubstringMsg
  | .circular => .thrown circularJsonMsg
  | .fromJson pv =>
    if function_name = FUNCTION_CREATION_TOOL_NAME then
      match pv with
      | .null => .returns (jstr (internalFailMsg function_name nullPropMsg))
      | .obj pfs =>
        if (objField pfs "new_function_name").isNone then
          .returns (jstr (missingParamMsg "new_function_name" function_name))
        else if (objField pfs "new_function_description").isNone then
          .returns (jstr (missingParamMsg "new_function_description" function_name))
        else if (objField pfs "new_function_parameters_schema").isNone then
          .returns (jstr (missingParamMsg "new_function_parameters_schema" function_name))
        else
          .returns (jstr (create_dynamic_function env.synth
            (argString (objField pfs "new_function_name"))
            (argString (objField pfs "new_function_description"))
            (objField pfs "new_function_parameters_schema")
            (argOptString (objField pfs "host_provided_api_description_for_new_func"))).ret)
      | _ =>
        .returns (jstr (missingParamMsg "new_function_name" function_name))
    else
      match get_function_definition_js env.fsys function_name with
      | none => .returns (jstr (notFoundMsg function_name))
      | some fdef =>
        match fdef.codeStringField with
        | some (.str code) =>
          if code = "" then .returns (jstr (notFoundMsg function_name))
          else runSandbox env function_name code params_for_function
            external_apis_dict_override
        | some v =>
          if jvTruthy v then
            runSandbox env function_name (jvDisplay v) params_for_function
              external_apis_dict_override
          else .returns (jstr (notFoundMsg function_name))
        | none => .returns (jstr (notFoundMsg function_name))

/-- The prompt list a loop outcome carries. -/
def LoopOut.promptsOf : LoopOut → List PromptArgs
  | .success _ ps _ => ps
  | .exhausted _ ps _ => ps

/-- The call count a loop outcome carries. -/
def LoopOut.callsOf : LoopOut → Nat
  | .success _ _ calls => calls
  | .exhausted _ _ calls => calls

/-- A syntactically valid candidate that defines a function named `other`
and none named `foo`. -/
def noFooCandidate : String := "function other() \x7b return 1; \x7d"


/-! The store's write operations, for the store-wide invariant of C9. -/

/-- One operation that can touch the store directory: a definition request
(writing whatever record `create_dynamic_function` produced, if any), a
predefined-function store, or a bulk clear. -/
inductive StoreOp where
  | opCreate (env : SynthEnv) (name desc : String) (schema : Option JValue)
      (apiD : Option String)
  | opPredef (vmCompile : CheckScript → Option String) (input : PredefFuncData)
  | opClear

/-- Apply one operation to the store directory. -/
def applyStoreOp (fsys : FS) : StoreOp → FS
  | .opCreate env name desc schema apiD =>
    match (create_dynamic_function env name desc schema apiD).stored with
    | some fd => putFuncData fsys fd
    | none => fsys
  | .opPredef vm input =>
    match (store_predefined_function_js vm input).stored with
    | some fd => putFuncData fsys fd
    | none => fsys
  | .opClear => clear_function_store_js fsys

def applyStoreOps (fsys : FS) (ops : List StoreOp) : FS :=
  ops.foldl applyStoreOp fsys


/-- Code whose callable awaits a promise that never settles. -/
def spinCode : String :=
  "async function spin(params) \x7b await new Promise(() => \x7b\x7d); return \"never\"; \x7d"

/-- Code whose callable returns `undefined`. -/
def undefCode : String := "async function ufn(params) \x7b return undefined; \x7d"

/-! Facts about the synthesis/repair loop. -/

/-- The loop only appends to the prompt list it was given. -/
theorem synthRepairLoop_prompts_prefix (env : SynthEnv) (name desc : String)
    (schema : JValue) (apiDesc : String) :
    ∀ remaining attempt st ps calls, ∃ suffix,
      (synthRepairLoop env name desc schema apiDesc remaining attempt st ps calls).promptsOf
        = ps ++ suffix := by
  intro remaining
  induction remaining with
  | zero =>
    intro attempt st ps calls
    exact ⟨[], by simp [synthRepairLoop, LoopOut.promptsOf]⟩
  | succ r ih =>
    intro attempt st ps calls
    unfold synthRepairLoop
    cases ho : env.oracle calls with
    | err m =>
      simp only []
      obtain ⟨s, hs⟩ := ih (attempt + 1) _ (ps ++ [_]) (calls + 1)
      exact ⟨_, hs.trans (List.append_assoc _ _ _)⟩
    | empty =>
      simp only []
      obtain ⟨s, hs⟩ := ih (attempt + 1) _ (ps ++ [_]) (calls + 1)
      exact ⟨_, hs.trans (List.append_assoc _ _ _)⟩
    | ok text =>
      simp only []
      cases hv : validateCandidate env.vmCompile name (stripFences text) with
      | none =>
        simp only [hv, LoopOut.promptsOf]
        exact ⟨[_], rfl⟩
      | some m =>
        simp only [hv]
        obtain ⟨s, hs⟩ := ih (attempt + 1) _ (ps ++ [_]) (calls + 1)
        exact ⟨_, hs.trans (List.append_assoc _ _ _)⟩

/-- The loop makes at most one oracle call per remaining iteration. -/
theorem synthRepairLoop_calls_le (env : SynthEnv) (name desc : String)
    (schema : JValue) (apiDesc : String) :
    ∀ remaining attempt st ps calls,
      (synthRepairLoop env name desc schema apiDesc remaining attempt st ps calls).callsOf
        ≤ calls + remaining := by
  intro remaining
  induction remaining with
  | zero =>
    intro attempt st ps calls
    simp [synthRepairLoop, LoopOut.callsOf]
  | succ r ih =>
    intro attempt st ps calls
    unfold synthRepairLoop
    cases ho : env.oracle calls with
    | err m =>
      simp only []
      exact le_trans (ih (attempt + 1) _ _ (calls + 1)) (by omega)
    | empty =>
      simp only []
      exact le_trans (ih (attempt + 1) _ _ (calls + 1)) (by omega)
    | ok text =>
      simp only []
      cases hv : validateCandidate env.vmCompile name (stripFences text) with
      | none =>
        simp only [hv, LoopOut.callsOf]
        omega
      | some m =>
        simp only [hv]
        exact le_trans (ih (attempt + 1) _ _ (calls + 1)) (by omega)

/-- When the validator rejects every candidate the oracle can produce, the
loop runs its full budget: one oracle call per iteration, ending exhausted,
with the last error recorded whenever at least one iteration ran. -/
theorem synthRepairLoop_all_fail (env : SynthEnv) (name desc : String)
    (schema : JValue) (apiDesc : String)
    (hval : ∀ i text, env.oracle i = .ok text →
      validateCandidate env.vmCompile name (stripFences text) ≠ none) :
    ∀ remaining attempt st ps calls, ∃ st' ps',
      synthRepairLoop env name desc schema apiDesc remaining attempt st ps calls
        = .exhausted st' ps' (calls + remaining) ∧
      (st.last_error.isSome = true ∨ 1 ≤ remaining → st'.last_error.isSome = true) := by
  intro remaining
  induction remaining with
  | zero =>
    intro attempt st ps calls
    refine ⟨st, ps, by simp [synthRepairLoop], ?_⟩
    intro h
    match h with
    | .inl h => exact h
    | .inr h => omega
  | succ r ih =>
    intro attempt st ps calls
    unfold synthRepairLoop
    cases ho : env.oracle calls with
    | err m =>
      simp only []
      obtain ⟨st', ps', heq, hsome⟩ := ih (attempt + 1)
        { st with last_error := some m } (ps ++ [_]) (calls + 1)
      refine ⟨st', ps', ?_, fun _ => hsome (.inl rfl)⟩
      rw [heq]
      congr 1
      omega
    | empty =>
      simp only []
      obtain ⟨st', ps', heq, hsome⟩ := ih (attempt + 1)
        { generated_code_string := "", last_error := some emptyLLMMsg,
          sanitized_code := st.sanitized_code } (ps ++ [_]) (calls + 1)
      refine ⟨st', ps', ?_, fun _ => hsome (.inl rfl)⟩
      rw [heq]
      congr 1
      omega
    | ok text =>
      simp only []
      cases hv : validateCandidate env.vmCompile name (stripFences text) with
      | none => exact absurd hv (hval calls text ho)
      | some m =>
        simp only [hv]
        obtain ⟨st', ps', heq, hsome⟩ := ih (attempt + 1)
          ⟨text, some m, stripFences text⟩ (ps ++ [_]) (calls + 1)
        refine ⟨st', ps', ?_, fun _ => hsome (.inl rfl)⟩
        rw [heq]
        congr 1
        omega

/-!
The claim theorems.
-/

/-- C8 — a definition request whose function name is not a valid bare
identifier is rejected with the invalid-name error before any oracle call
(zero LLM calls, zero prompts built), and nothing is stored. -/
theorem create_invalid_name_no_oracle (env : SynthEnv)
    (name desc : String) (schema : JValue) (apiD : Option String)
    (hname : name ≠ "") (hdesc : desc ≠ "") (hschema : jvTruthy schema = true)
    (hbad : isValidJsName name = false) :
    create_dynamic_function env name desc (some schema) apiD =
      ⟨invalidNameMsg name, 0, [], none⟩ := by
  unfold create_dynamic_function
  simp [hname, hdesc, hschema, hbad]

/-- Witness for C8 at the spec's own example `"123bad"`. -/
theorem create_invalid_name_no_oracle_witness :
    create_dynamic_function ⟨fun _ => none, fun _ => .ok "x", none⟩
      "123bad" "adds numbers" (some (.obj [])) none =
      ⟨invalidNameMsg "123bad", 0, [], none⟩ :=
  create_invalid_name_no_oracle _ "123bad" "adds numbers" (.obj []) none
    (by decide) (by decide) (by decide) (by decide)

/-- C5 — when the validator rejects every candidate the oracle produces,
the loop makes exactly `MAX_SYNTAX_REPAIR_RETRIES + 1 = 4` oracle calls
(one initial plus three repairs, and never more by
`synthRepairLoop_calls_le`), stores nothing, and returns the tagged failure
string that names the attempt count and the last error. -/
theorem create_all_fail_four_calls (env : SynthEnv)
    (name desc : String) (schema : JValue) (apiD : Option String)
    (hname : name ≠ "") (hdesc : desc ≠ "") (hschema : jvTruthy schema = true)
    (hgood : isValidJsName name = true)
    (hval : ∀ code, validateCandidate env.vmCompile name code ≠ none) :
    (create_dynamic_function env name desc (some schema) apiD).oracleCalls =
      MAX_SYNTAX_REPAIR_RETRIES + 1 ∧
    (create_dynamic_function env name desc (some schema) apiD).stored = none ∧
    ∃ e, (create_dynamic_function env name desc (some schema) apiD).ret =
      synthesisFailMsg name e := by
  obtain ⟨st', ps', heq, hsome⟩ :=
    synthRepairLoop_all_fail env name desc schema
      (apiDescriptionArg env apiD)
      (fun i text _ => hval (stripFences text))
      (MAX_SYNTAX_REPAIR_RETRIES + 1) 0 ⟨"", none, ""⟩ [] 0
  have hcreate : create_dynamic_function env name desc (some schema) apiD =
      ⟨synthesisFailMsg name (st'.last_error.getD ""), 0 + (MAX_SYNTAX_REPAIR_RETRIES + 1),
        ps', none⟩ := by
    unfold create_dynamic_function
    simp only [hname, hdesc, hschema]
    simp [hgood, heq]
  rw [hcreate]
  refine ⟨by simp, rfl, st'.last_error.getD "", rfl⟩

/-- Witness for C5: a validator that rejects everything, an oracle that
always answers. -/
theorem create_all_fail_four_calls_witness :
    (create_dynamic_function ⟨fun _ => some "bad syntax", fun _ => .ok "code", none⟩
      "foo" "a tool" (some (.obj [])) none).oracleCalls = MAX_SYNTAX_REPAIR_RETRIES + 1 ∧
    (create_dynamic_function ⟨fun _ => some "bad syntax", fun _ => .ok "code", none⟩
      "foo" "a tool" (some (.obj [])) none).stored = none ∧
    ∃ e, (create_dynamic_function ⟨fun _ => some "bad syntax", fun _ => .ok "code", none⟩
      "foo" "a tool" (some (.obj [])) none).ret = synthesisFailMsg "foo" e :=
  create_all_fail_four_calls _ "foo" "a tool" (.obj []) none
    (by decide) (by decide) (by decide) (by decide)
    (fun code => by simp [validateCandidate])

/-- Two loop iterations after a first oracle call that returned empty
output: the first prompt is the synthesis prompt (no repair flag, no seed),
the second carries the repair flag with an empty previous candidate and the
empty-completion message — whatever the later calls do. -/
theorem synthRepairLoop_first_empty_prompts (env : SynthEnv) (name desc : String)
    (schema : JValue) (apiDesc : String) (hempty : env.oracle 0 = .empty) (r : Nat) :
    ∃ s, (synthRepairLoop env name desc schema apiDesc (r + 1 + 1) 0
        ⟨"", none, ""⟩ [] 0).promptsOf =
      ⟨name, desc, schema, apiDesc, false, "", none⟩ ::
      ⟨name, desc, schema, apiDesc, true, "", some emptyLLMMsg⟩ :: s := by
  unfold synthRepairLoop
  rw [hempty]
  simp only []
  unfold synthRepairLoop
  cases ho : env.oracle 1 with
  | err m =>
    simp only []
    obtain ⟨s, hs⟩ := synthRepairLoop_prompts_prefix env name desc schema apiDesc
      r 2 _ _ 2
    exact ⟨s, hs⟩
  | empty =>
    simp only []
    obtain ⟨s, hs⟩ := synthRepairLoop_prompts_prefix env name desc schema apiDesc
      r 2 _ _ 2
    exact ⟨s, hs⟩
  | ok text =>
    simp only []
    cases hv : validateCandidate env.vmCompile name (stripFences text) with
    | none =>
      simp only [hv, LoopOut.promptsOf]
      exact ⟨[], rfl⟩
    | some m =>
      simp only [hv]
      obtain ⟨s, hs⟩ := synthRepairLoop_prompts_prefix env name desc schema apiDesc
        r 2 _ _ 2
      exact ⟨s, hs⟩

/-- C6 (amended) — when the first oracle call fails with empty output before
any candidate exists, the next attempt still consumes the shared retry
budget (never more than 4 calls in total), but it is issued with a repair
prompt — `is_repair` set, seeded with the empty previous candidate and the
empty-completion message — not with the original synthesis prompt repeated. -/
theorem create_oracle_failure_uses_repair_prompt (env : SynthEnv)
    (name desc : String) (schema : JValue) (apiD : Option String)
    (hname : name ≠ "") (hdesc : desc ≠ "") (hschema : jvTruthy schema = true)
    (hgood : isValidJsName name = true)
    (hempty : env.oracle 0 = .empty) :
    (create_dynamic_function env name desc (some schema) apiD).prompts.get? 0 =
      some ⟨name, desc, schema, apiDescriptionArg env apiD, false, "", none⟩ ∧
    (create_dynamic_function env name desc (some schema) apiD).prompts.get? 1 =
      some ⟨name, desc, schema, apiDescriptionArg env apiD, true, "", some emptyLLMMsg⟩ ∧
    (create_dynamic_function env name desc (some schema) apiD).oracleCalls ≤
      MAX_SYNTAX_REPAIR_RETRIES + 1 := by
  have hprompts := synthRepairLoop_first_empty_prompts env name desc schema
    (apiDescriptionArg env apiD) hempty 2
  have hcalls := synthRepairLoop_calls_le env name desc schema
    (apiDescriptionArg env apiD) (MAX_SYNTAX_REPAIR_RETRIES + 1) 0 ⟨"", none, ""⟩ [] 0
  have hcreate :
      (create_dynamic_function env name desc (some schema) apiD).prompts =
        (synthRepairLoop env name desc schema (apiDescriptionArg env apiD)
          (MAX_SYNTAX_REPAIR_RETRIES + 1) 0 ⟨"", none, ""⟩ [] 0).promptsOf ∧
      (create_dynamic_function env name desc (some schema) apiD).oracleCalls =
        (synthRepairLoop env name desc schema (apiDescriptionArg env apiD)
          (MAX_SYNTAX_REPAIR_RETRIES + 1) 0 ⟨"", none, ""⟩ [] 0).callsOf := by
    unfold create_dynamic_function
    simp only [hname, hdesc, hschema]
    simp only [or_false, false_or, if_neg, hgood]
    cases synthRepairLoop env name desc schema (apiDescriptionArg env apiD)
        (MAX_SYNTAX_REPAIR_RETRIES + 1) 0 ⟨"", none, ""⟩ [] 0 with
    | success st ps calls => simp [LoopOut.promptsOf, LoopOut.callsOf]
    | exhausted st ps calls => simp [LoopOut.promptsOf, LoopOut.callsOf]
  obtain ⟨hps, hcs⟩ := hcreate
  obtain ⟨s, hs⟩ := hprompts
  have h4 : MAX_SYNTAX_REPAIR_RETRIES + 1 = 2 + 1 + 1 := rfl
  rw [hps, hcs, h4, hs]
  refine ⟨rfl, rfl, ?_⟩
  rw [← h4]
  simpa using hcalls

/-- Witness for C6 (amended): a concrete run whose first call returns empty. -/
theorem create_oracle_failure_uses_repair_prompt_witness :
    (create_dynamic_function ⟨fun _ => some "bad", fun _ => .empty, none⟩
      "foo" "a tool" (some (.obj [])) none).prompts.get? 0 =
      some ⟨"foo", "a tool", .obj [], "No host APIs provided.", false, "", none⟩ ∧
    (create_dynamic_function ⟨fun _ => some "bad", fun _ => .empty, none⟩
      "foo" "a tool" (some (.obj [])) none).prompts.get? 1 =
      some ⟨"foo", "a tool", .obj [], "No host APIs provided.", true, "",
        some emptyLLMMsg⟩ ∧
    (create_dynamic_function ⟨fun _ => some "bad", fun _ => .empty, none⟩
      "foo" "a tool" (some (.obj [])) none).oracleCalls ≤
      MAX_SYNTAX_REPAIR_RETRIES + 1 :=
  create_oracle_failure_uses_repair_prompt _ "foo" "a tool" (.obj []) none
    (by decide) (by decide) (by decide) (by decide) rfl

/-- C6 (counterexample) — concrete run refuting the claim as stated: the
first oracle call returns empty output before any candidate exists, yet the
second call's prompt is a repair prompt (`is_repair = true`), not the
original synthesis prompt (`is_repair = false`) repeated. -/
theorem second_prompt_is_repair_cex :
    ((create_dynamic_function ⟨fun _ => some "bad", fun _ => .empty, none⟩
        "foo" "a tool" (some (.obj [])) none).prompts.get? 1).map
          PromptArgs.is_repair = some true ∧
    ((create_dynamic_function ⟨fun _ => some "bad", fun _ => .empty, none⟩
        "foo" "a tool" (some (.obj [])) none).prompts.get? 0).map
          PromptArgs.is_repair = some false :=
  ⟨rfl, rfl⟩


/-- C2 (counterexample) — the claim requires a syntactically valid candidate
that defines no callable bound to the expected name to be rejected; but with
a V8 parser that compiles the composed script (as it does for
`noFooCandidate`, plain valid JavaScript), the validator reports no error —
`new vm.Script` only compiles, and the embedded `typeof` check never runs at
validation time — and `create_dynamic_function` accepts and stores the
candidate under the name `foo` it never defines. -/
theorem validator_ignores_definedness_cex :
    validateCandidate (fun _ => none) "foo" noFooCandidate = none ∧
    ((create_dynamic_function ⟨fun _ => none, fun _ => .ok noFooCandidate, none⟩
        "foo" "a tool" (some (.obj [])) none).stored.map FuncData.code_string) =
      some noFooCandidate ∧
    (create_dynamic_function ⟨fun _ => none, fun _ => .ok noFooCandidate, none⟩
        "foo" "a tool" (some (.obj [])) none).ret = createSuccessMsg "foo" := by
  refine ⟨rfl, ?_, ?_⟩ <;> rfl

/-- C2 (amended) — validation is parse-only: with an oracle that always
returns the same candidate, `create_dynamic_function` accepts and stores it
exactly when the V8 parser compiles the composed check script, with no
reference to whether the candidate defines a callable of the expected name
(that check happens only at execution time, lines 397-399). -/
theorem create_accepts_iff_wrapper_compiles (env : SynthEnv)
    (name desc : String) (schema : JValue) (apiD : Option String)
    (candidate : String)
    (hname : name ≠ "") (hdesc : desc ≠ "") (hschema : jvTruthy schema = true)
    (hgood : isValidJsName name = true)
    (horacle : ∀ i, env.oracle i = .ok candidate) :
    (create_dynamic_function env name desc (some schema) apiD).stored =
      some ⟨name, desc, jsonStringify schema, stripFences candidate, false⟩ ↔
    env.vmCompile ⟨name, stripFences candidate⟩ = none := by
  cases hv : env.vmCompile ⟨name, stripFences candidate⟩ with
  | none =>
    have hcreate : create_dynamic_function env name desc (some schema) apiD =
        ⟨createSuccessMsg name, 1,
          [⟨name, desc, schema, apiDescriptionArg env apiD, false, "", none⟩],
          some ⟨name, desc, jsonStringify schema, stripFences candidate, false⟩⟩ := by
      have hstep : synthRepairLoop env name desc schema (apiDescriptionArg env apiD)
          (MAX_SYNTAX_REPAIR_RETRIES + 1) 0 ⟨"", none, ""⟩ [] 0 =
          .success ⟨candidate, none, stripFences candidate⟩
            [⟨name, desc, schema, apiDescriptionArg env apiD, false, "", none⟩] 1 := by
        unfold synthRepairLoop
        rw [horacle 0]
        simp only [validateCandidate] at hv ⊢
        simp [hv]
      unfold create_dynamic_function
      simp [hname, hdesc, hschema, hgood, hstep]
    rw [hcreate]
    simp
  | some m =>
    obtain ⟨st', ps', heq, -⟩ := synthRepairLoop_all_fail env name desc schema
      (apiDescriptionArg env apiD)
      (fun i text hok => by
        have : text = candidate := by
          have h2 := horacle i
          rw [hok] at h2
          cases h2
          rfl
        rw [this]
        simp only [validateCandidate] at hv ⊢
        rw [hv]
        exact fun h => Option.noConfusion h)
      (MAX_SYNTAX_REPAIR_RETRIES + 1) 0 ⟨"", none, ""⟩ [] 0
    have hcreate : (create_dynamic_function env name desc (some schema) apiD).stored = none := by
      unfold create_dynamic_function
      simp [hname, hdesc, hschema, hgood, heq]
    rw [hcreate]
    simp [hv]

/-- Witness for C2 (amended): the concrete candidate, a compiling parser. -/
theorem create_accepts_iff_wrapper_compiles_witness :
    (create_dynamic_function ⟨fun _ => none, fun _ => .ok noFooCandidate, none⟩
        "foo" "a tool" (some (.obj [])) none).stored =
      some ⟨"foo", "a tool", jsonStringify (.obj []), stripFences noFooCandidate, false⟩ ↔
    (fun _ => none : CheckScript → Option String) ⟨"foo", stripFences noFooCandidate⟩ =
      none :=
  create_accepts_iff_wrapper_compiles _ "foo" "a tool" (.obj []) none noFooCandidate
    (by decide) (by decide) (by decide) (by decide) (fun i => rfl)

/-- Writing a record with `putFuncData` and fetching it back parses to a
view carrying exactly the stored fields. -/
theorem get_putFuncData_roundtrip (fsys : FS) (name desc code : String) (schema : JValue) :
    ∃ view,
      get_function_definition_js
        (putFuncData fsys ⟨name, desc, jsonStringify schema, code, false⟩) name =
          some view ∧
      view.nameField = some (.str name) ∧
      view.descriptionField = some (.str desc) ∧
      view.parameters_schema = schema ∧
      view.codeStringField = some (.str code) ∧
      view.isInternalField = some (.bool false) := by
  have hlookup : (putFuncData fsys ⟨name, desc, jsonStringify schema, code, false⟩)
      (funcFileName name) =
      some (.content (jsonStringify
        (funcDataToJ ⟨name, desc, jsonStringify schema, code, false⟩))) := by
    unfold putFuncData fsWrite
    simp
  refine ⟨⟨[("name", .str name), ("description", .str desc),
    ("parameters_schema_json", .str (jsonStringify schema)),
    ("code_string", .str code),
    ("is_internal_special_function", .bool false)], schema⟩, ?_, rfl, rfl, rfl, rfl, rfl⟩
  unfold get_function_definition_js
  rw [hlookup]
  simp only [funcDataToJ, jsonParse_jsonStringify]
  have hfield : objField [("name", JValue.str name), ("description", JValue.str desc),
      ("parameters_schema_json", JValue.str (jsonStringify schema)),
      ("code_string", JValue.str code),
      ("is_internal_special_function", JValue.bool false)] "parameters_schema_json" =
      some (.str (jsonStringify schema)) := rfl
  rw [hfield]
  simp [jsonParse_jsonStringify]

/-- C7 — round-trip through the store: writing a definition the way
`create_dynamic_function` persists it (name, description, the schema
serialized into `parameters_schema_json`, the code, `is_internal` false)
and fetching it back by name yields a view whose name, description,
reparsed parameter schema and code equal the stored ones exactly. -/
theorem put_get_roundtrip (fsys : FS) (name desc code : String) (schema : JValue) :
    ∃ view,
      get_function_definition_js
        (putFuncData fsys ⟨name, desc, jsonStringify schema, code, false⟩) name =
          some view ∧
      view.nameField = some (.str name) ∧
      view.descriptionField = some (.str desc) ∧
      view.parameters_schema = schema ∧
      view.codeStringField = some (.str code) ∧
      view.isInternalField = some (.bool false) :=
  get_putFuncData_roundtrip fsys name desc code schema

theorem create_stored_non_internal (env : SynthEnv) (name desc : String)
    (schema : Option JValue) (apiD : Option String) (fd : FuncData)
    (h : (create_dynamic_function env name desc schema apiD).stored = some fd) :
    fd.is_internal_special_function = false := by
  unfold create_dynamic_function at h
  match schema with
  | none => simp at h
  | some s =>
    simp only [] at h
    split at h
    · simp at h
    · split at h
      · simp at h
      · split at h
        · simp at h
        · simp only [CreateTrace.mk.injEq] at h
          cases h
          rfl

theorem predef_stored_non_internal (vm : CheckScript → Option String)
    (input : PredefFuncData) (fd : FuncData)
    (h : (store_predefined_function_js vm input).stored = some fd) :
    fd.is_internal_special_function = false := by
  unfold store_predefined_function_js at h
  split at h
  · simp at h
  · split at h
    · simp at h
    · split at h
      · simp at h
      · simp only [PredefResult.mk.injEq] at h
        cases h
        rfl

theorem isJsonFile_funcFileName (name : String) :
    isJsonFile (funcFileName name) = true := by
  unfold isJsonFile funcFileName
  have hdata : (name ++ ".json").data = name.data ++ ".json".data := by
    simp [String.data_append]
  rw [hdata]
  have hlen : (name.data ++ ".json".data).length = name.data.length + 5 := by
    simp
  rw [hlen]
  have hdrop : (name.data ++ ".json".data).drop (name.data.length + 5 - 5) = ".json".data := by
    have : name.data.length + 5 - 5 = name.data.length := by omega
    rw [this, List.drop_left]
  rw [hdrop]
  simp

/-- The store-wide invariant: every present file is a record one of the two
writers produced — named `name + ".json"`, holding the serialized
record, with `is_internal_special_function` false. -/
def StoreInv (fsys : FS) : Prop :=
  ∀ f e, fsys f = some e → ∃ fd : FuncData,
    f = funcFileName fd.name ∧
    e = .content (jsonStringify (funcDataToJ fd)) ∧
    fd.is_internal_special_function = false

theorem storeInv_empty : StoreInv emptyFS := by
  intro f e h
  simp [emptyFS] at h

theorem storeInv_put (fsys : FS) (fd : FuncData) (hinv : StoreInv fsys)
    (hfd : fd.is_internal_special_function = false) :
    StoreInv (putFuncData fsys fd) := by
  intro f e h
  unfold putFuncData fsWrite at h
  by_cases hf : f = funcFileName fd.name
  · rw [if_pos hf] at h
    cases h
    exact ⟨fd, hf, rfl, hfd⟩
  · rw [if_neg hf] at h
    exact hinv f e h

theorem storeInv_clear (fsys : FS) (hinv : StoreInv fsys) :
    StoreInv (clear_function_store_js fsys) := by
  intro f e h
  unfold clear_function_store_js at h
  by_cases hf : isJsonFile f = true
  · rw [if_pos hf] at h
    cases h
  · rw [if_neg hf] at h
    exact hinv f e h

theorem storeInv_applyStoreOp (fsys : FS) (op : StoreOp) (hinv : StoreInv fsys) :
    StoreInv (applyStoreOp fsys op) := by
  match op with
  | .opCreate env name desc schema apiD =>
    show StoreInv (match (create_dynamic_function env name desc schema apiD).stored with
      | some fd => putFuncData fsys fd
      | none => fsys)
    cases hst : (create_dynamic_function env name desc schema apiD).stored with
    | none => exact hinv
    | some fd =>
      exact storeInv_put fsys fd hinv
        (create_stored_non_internal env name desc schema apiD fd hst)
  | .opPredef vm input =>
    show StoreInv (match (store_predefined_function_js vm input).stored with
      | some fd => putFuncData fsys fd
      | none => fsys)
    cases hst : (store_predefined_function_js vm input).stored with
    | none => exact hinv
    | some fd =>
      exact storeInv_put fsys fd hinv (predef_stored_non_internal vm input fd hst)
  | .opClear => exact storeInv_clear fsys hinv

theorem storeInv_applyStoreOps (ops : List StoreOp) :
    ∀ fsys, StoreInv fsys → StoreInv (applyStoreOps fsys ops) := by
  induction ops with
  | nil => intro fsys h; exact h
  | cons op ops ih =>
    intro fsys h
    exact ih (applyStoreOp fsys op) (storeInv_applyStoreOp fsys op h)

/-- C9 — every record either writer ever stores carries
`is_internal_special_function = false` (and sits in a `name + ".json"`
file holding the serialized record), so a bulk clear — which unlinks every
`.json` file with no exemption — leaves the store directory with no record
at all. -/
theorem store_non_internal_and_clear_removes_all (ops : List StoreOp) :
    (∀ f e, applyStoreOps emptyFS ops f = some e → ∃ fd : FuncData,
      f = funcFileName fd.name ∧
      e = .content (jsonStringify (funcDataToJ fd)) ∧
      fd.is_internal_special_function = false) ∧
    (∀ f, clear_function_store_js (applyStoreOps emptyFS ops) f = none) := by
  have hinv : StoreInv (applyStoreOps emptyFS ops) :=
    storeInv_applyStoreOps ops emptyFS storeInv_empty
  refine ⟨hinv, ?_⟩
  intro f
  unfold clear_function_store_js
  by_cases hf : isJsonFile f = true
  · rw [if_pos hf]
  · rw [if_neg hf]
    cases he : applyStoreOps emptyFS ops f with
    | none => rfl
    | some e =>
      obtain ⟨fd, hname, -, -⟩ := hinv f e he
      rw [hname] at hf
      exact absurd (isJsonFile_funcFileName fd.name) hf

/-- C10 — a stored record file that exists but cannot be read, or whose text
`JSON.parse` rejects, makes `get_function_definition_js` return `null`, so
invoking that name yields exactly the same tagged not-found string as
invoking a name that was never stored. -/
theorem corrupt_record_same_as_missing (env : ExecEnv) (function_name : String)
    (pv : JValue) (ov : Option (List String))
    (hname : function_name ≠ FUNCTION_CREATION_TOOL_NAME)
    (hfile : env.fsys (funcFileName function_name) = some .unreadable ∨
      ∃ text, env.fsys (funcFileName function_name) = some (.content text) ∧
        jsonParse text = none) :
    get_function_definition_js env.fsys function_name = none ∧
    execute_dynamic_function env function_name (.fromJson pv) ov =
      .returns (jstr (notFoundMsg function_name)) ∧
    ∀ env2 : ExecEnv, env2.fsys (funcFileName function_name) = none →
      execute_dynamic_function env2 function_name (.fromJson pv) ov =
        .returns (jstr (notFoundMsg function_name)) := by
  have hget : get_function_definition_js env.fsys function_name = none := by
    unfold get_function_definition_js
    match hfile with
    | .inl h => rw [h]
    | .inr ⟨text, h, hparse⟩ =>
      rw [h]
      simp [hparse]
  refine ⟨hget, ?_, ?_⟩
  · unfold execute_dynamic_function
    simp [hname, hget]
  · intro env2 h2
    have hget2 : get_function_definition_js env2.fsys function_name = none := by
      unfold get_function_definition_js
      rw [h2]
    unfold execute_dynamic_function
    simp [hname, hget2]

/-- Witness for C10: a store holding one unparseable record file. -/
theorem corrupt_record_same_as_missing_witness :
    get_function_definition_js
      (fun f => if f = "ghost.json" then some (.content "not json") else none) "ghost" =
      none ∧
    execute_dynamic_function
      ⟨⟨fun _ => none, fun _ => .empty, none⟩,
        fun f => if f = "ghost.json" then some (.content "not json") else none,
        [], fun _ _ => .promise (.resolves (jstr "ok"))⟩
      "ghost" (.fromJson (.obj [])) none =
      .returns (jstr (notFoundMsg "ghost")) ∧
    ∀ env2 : ExecEnv, env2.fsys (funcFileName "ghost") = none →
      execute_dynamic_function env2 "ghost" (.fromJson (.obj [])) none =
        .returns (jstr (notFoundMsg "ghost")) :=
  corrupt_record_same_as_missing
    ⟨⟨fun _ => none, fun _ => .empty, none⟩,
      fun f => if f = "ghost.json" then some (.content "not json") else none,
      [], fun _ _ => .promise (.resolves (jstr "ok"))⟩
    "ghost" (.obj []) none (by decide)
    (.inr ⟨"not json", by simp [funcFileName], by rfl⟩)

/-- C4 — the sandbox context binds exactly `params`, `external_apis` and the
fixed utility set (`JSON`, `uuidv4`, `Math`, the redirected `console`, the
four timer functions, `Promise`); `require`, `fs` and `process` are unbound,
so referencing them fails with an unresolved name instead of reaching an
ambient facility. -/
theorem sandbox_binds_exactly_fixed_set (p : JSVal) (apis : List String) :
    sandboxLookup (mkSandbox p apis) "require" = none ∧
    sandboxLookup (mkSandbox p apis) "fs" = none ∧
    sandboxLookup (mkSandbox p apis) "process" = none ∧
    (mkSandbox p apis).map Prod.fst =
      ["params", "external_apis", "JSON", "uuidv4", "Math", "console",
       "setTimeout", "clearTimeout", "setInterval", "clearInterval", "Promise"] ∧
    ∀ n, (sandboxLookup (mkSandbox p apis) n).isSome = true ↔
      n ∈ ["params", "external_apis", "JSON", "uuidv4", "Math", "console",
       "setTimeout", "clearTimeout", "setInterval", "clearInterval", "Promise"] := by
  refine ⟨rfl, rfl, rfl, rfl, ?_⟩
  intro n
  simp only [sandboxLookup, mkSandbox]
  rw [Option.isSome_map']
  rw [List.find?_isSome]
  constructor
  · rintro ⟨x, hx, hpx⟩
    simp only [List.mem_cons, List.not_mem_nil, or_false] at hx
    have hn : x.1 = n := by
      exact eq_of_beq hpx
    rcases hx with h | h | h | h | h | h | h | h | h | h | h <;>
      (subst h; simp at hn; subst hn; simp)
  · intro hn
    simp only [List.mem_cons, List.not_mem_nil, or_false] at hn
    rcases hn with h | h | h | h | h | h | h | h | h | h | h
    · exact ⟨("params", .paramsVal p), by simp, by simp [h]⟩
    · exact ⟨("external_apis", .apisVal apis), by simp, by simp [h]⟩
    · exact ⟨("JSON", .jsonUtil), by simp, by simp [h]⟩
    · exact ⟨("uuidv4", .uuidUtil), by simp, by simp [h]⟩
    · exact ⟨("Math", .mathUtil), by simp, by simp [h]⟩
    · exact ⟨("console", .consoleUtil), by simp, by simp [h]⟩
    · exact ⟨("setTimeout", .setTimeoutUtil), by simp, by simp [h]⟩
    · exact ⟨("clearTimeout", .clearTimeoutUtil), by simp, by simp [h]⟩
    · exact ⟨("setInterval", .setIntervalUtil), by simp, by simp [h]⟩
    · exact ⟨("clearInterval", .clearIntervalUtil), by simp, by simp [h]⟩
    · exact ⟨("Promise", .promiseUtil), by simp, by simp [h]⟩


/-- When the store lookup succeeds with a record whose code field is a
non-empty string, execution proceeds to the sandbox phase with that code. -/
theorem execute_runs_stored_code (env : ExecEnv) (function_name : String)
    (pv : JValue) (ov : Option (List String)) (view : FuncDefView) (code : String)
    (hname : ¬ function_name = FUNCTION_CREATION_TOOL_NAME)
    (hget : get_function_definition_js env.fsys function_name = some view)
    (hcode : view.codeStringField = some (.str code))
    (hne : ¬ code = "") :
    execute_dynamic_function env function_name (.fromJson pv) ov =
      runSandbox env function_name code (.fromJson pv) ov := by
  unfold execute_dynamic_function
  simp [hname, hget, hcode, hne]

set_option maxRecDepth 8192 in
/-- C1 — evaluating the code at the failing input: a stored function whose
callable never resolves makes `execute_dynamic_function` diverge — the call
never returns, and in particular never returns a timeout-tagged error.  The
`timeout: 15000` option at line 406 is passed to the `vm.Script`
constructor, which defines no such option, `runInContext` at line 410 runs
with no options, and a vm-level timeout would in any case bound only the
synchronous phase, never the `await` of the pending promise. -/
theorem exec_never_resolving_call_diverges :
    execute_dynamic_function
      ⟨⟨fun _ => none, fun _ => .empty, none⟩,
        putFuncData emptyFS ⟨"spin", "never settles", jsonStringify (.obj []),
          spinCode, false⟩,
        [], fun _ _ => .promise .neverResolves⟩
      "spin" (.fromJson (.obj [])) none = .diverges := by
  obtain ⟨view, hget, -, -, -, hcode, -⟩ :=
    get_putFuncData_roundtrip emptyFS "spin" "never settles" spinCode (.obj [])
  rw [execute_runs_stored_code _ "spin" (.obj []) none view spinCode
    (by decide) hget hcode (by decide)]
  rfl


set_option maxRecDepth 8192 in
/-- C3 — evaluating the code at the failing inputs: an `undefined` `params`
makes the debug template of line 337 throw calling `.substring` on the
`undefined` that `JSON.stringify(undefined)` returns, and a cyclic `params`
makes `JSON.stringify` itself throw — both faults escape
`execute_dynamic_function` to its caller; and a stored callable that
resolves with `undefined` makes the function return
`JSON.stringify(undefined)`, that is `undefined`, not a string. -/
theorem exec_fault_escape_and_undef_result :
    execute_dynamic_function
      ⟨⟨fun _ => none, fun _ => .empty, none⟩, emptyFS, [],
        fun _ _ => .promise (.resolves (jstr "x"))⟩
      "foo" .undef none = .thrown undefSubstringMsg ∧
    execute_dynamic_function
      ⟨⟨fun _ => none, fun _ => .empty, none⟩, emptyFS, [],
        fun _ _ => .promise (.resolves (jstr "x"))⟩
      "foo" .circular none = .thrown circularJsonMsg ∧
    execute_dynamic_function
      ⟨⟨fun _ => none, fun _ => .empty, none⟩,
        putFuncData emptyFS ⟨"ufn", "returns undefined", jsonStringify (.obj []),
          undefCode, false⟩,
        [], fun _ _ => .promise (.resolves .undef)⟩
      "ufn" (.fromJson (.obj [])) none = .returns .undef := by
  refine ⟨rfl, rfl, ?_⟩
  obtain ⟨view, hget, -, -, -, hcode, -⟩ :=
    get_putFuncData_roundtrip emptyFS "ufn" "returns undefined" undefCode (.obj [])
  rw [execute_runs_stored_code _ "ufn" (.obj []) none view undefCode
    (by decide) hget hcode (by decide)]
  rfl
